import Mathlib

/-!
Verification of the stock reference-data upsert and ingestion-provenance
subsystem of the Stock_Market_Assit repository.

The Lean definitions below are a shallow embedding of the Python source:
  - `src/smassist/database.py` (schema, `_norm`, `_find_stock_id`,
    `_value_owned_by_other`, `upsert_stock`, `record_ingest_source`,
    `ensure_universe`, `upsert_universe_membership`,
    `export_universe_snapshot_csv`);
  - `scripts/build_db.py` (`read_snapshot_csv`, `ingest_from_snapshots`).

The SQLite stocks table is a list of rows plus the AUTOINCREMENT counter;
the three partial unique indexes of the schema
(`ux_stocks_isin`, `ux_stocks_symbol_nse`, `ux_stocks_symbol_bse`, each with
`WHERE col IS NOT NULL AND col <> ''`) are modelled by an explicit
constraint check on every INSERT/UPDATE, and a statement that would violate
one returns `Except.error` (sqlite3.IntegrityError).  Timestamps
(`utc_now_str`) are passed in as parameters.  Python's `str.strip` is
modelled by `pyStrip`, `str.lower` by `String.toLower`, and the stdlib
`csv` module by an explicit CSV writer/parser.
-/

namespace SMAssist

/-! ### Python string primitives -/

/-- Whitespace for Python's `str.strip()` (modelled with `Char.isWhitespace`). -/
def isPySpace (c : Char) : Bool := c.isWhitespace

/-- Drop trailing whitespace characters from a character list. -/
def stripTrailing : List Char → List Char
  | [] => []
  | c :: cs =>
    match stripTrailing cs with
    | [] => if isPySpace c then [] else [c]
    | r => c :: r

/-- Python `s.strip()`: remove leading and trailing whitespace. -/
def pyStrip (s : String) : String := ⟨stripTrailing (s.data.dropWhile isPySpace)⟩

/-- Python single-character `str.replace(a, b)` (used by the exporter to
replace newlines in company names with spaces). -/
def replaceChar (s : String) (a b : Char) : String :=
  ⟨s.data.map (fun c => if c = a then b else c)⟩

/-! ### The stocks table -/

/-- One row of the `stocks` table (`SCHEMA_SQL`, database.py lines 15-25). -/
structure StockRow where
  stock_id : Nat
  symbol_nse : Option String
  symbol_bse : Option String
  company_name : Option String
  isin : Option String
  nse_series : Option String
  bse_scrip_code : Option String
  status : Option String
  updated_utc : String
deriving DecidableEq

/-- The `stocks` table: its rows in rowid order plus the AUTOINCREMENT
counter (SQLite hands out `nextId` to the next INSERT). -/
structure StocksTable where
  rows : List StockRow
  nextId : Nat
deriving DecidableEq

/-- A freshly created database's stocks table (AUTOINCREMENT starts at 1). -/
def emptyStocks : StocksTable := ⟨[], 1⟩

/-- The dataclass `StockUpsert` (database.py lines 127-135). -/
structure StockUpsert where
  symbol_nse : Option String := none
  symbol_bse : Option String := none
  company_name : Option String := none
  isin : Option String := none
  nse_series : Option String := none
  bse_scrip_code : Option String := none
  status : Option String := none
deriving DecidableEq

/-- `_norm` (database.py lines 156-161): strip, and turn the empty result
into NULL. -/
def _norm : Option String → Option String
  | none => none
  | some s => let t := pyStrip s; if t = "" then none else some t

/-- One key lookup of `_find_stock_id`: Python skips the query when the key
is falsy (None or the empty string), otherwise `fetchone` returns the first
row whose column equals the key. -/
def lookupKey (rows : List StockRow) (f : StockRow → Option String)
    (v : Option String) : Option Nat :=
  match v with
  | none => none
  | some s =>
    if s = "" then none
    else
      match rows.find? (fun r => f r == some s) with
      | some r => some r.stock_id
      | none => none

/-- `_find_stock_id` (database.py lines 163-176): ISIN first, then NSE
symbol, then BSE symbol; the first hit wins. -/
def _find_stock_id (rows : List StockRow)
    (isin symbol_nse symbol_bse : Option String) : Option Nat :=
  match lookupKey rows (fun r => r.isin) isin with
  | some i => some i
  | none =>
    match lookupKey rows (fun r => r.symbol_nse) symbol_nse with
    | some i => some i
    | none => lookupKey rows (fun r => r.symbol_bse) symbol_bse

/-- `_value_owned_by_other` (database.py lines 179-192): the value is
non-falsy and some row with a different stock_id holds it. -/
def _value_owned_by_other (rows : List StockRow) (f : StockRow → Option String)
    (value : Option String) (current_stock_id : Nat) : Bool :=
  match value with
  | none => false
  | some s =>
    if s = "" then false
    else rows.any (fun r => f r == some s && r.stock_id != current_stock_id)

/-- SQLite's check of one partial unique index when writing value `v` into
the row with id `selfId`: a violation iff `v` is neither NULL nor empty and
a different row already holds it. -/
def uniqueViolation (rows : List StockRow) (f : StockRow → Option String)
    (v : Option String) (selfId : Nat) : Bool :=
  match v with
  | none => false
  | some s =>
    if s = "" then false
    else rows.any (fun r => f r == some s && r.stock_id != selfId)

/-- COALESCE of a bind parameter with the stored column value. -/
def coalesce (a b : Option String) : Option String :=
  match a with
  | some x => some x
  | none => b

/-- The row produced by the UPDATE statement of `upsert_stock`
(database.py lines 227-241): each column becomes
`COALESCE(param, column)` and the timestamp is refreshed. -/
def updatedRow (symbol_nse symbol_bse company_name isin nse_series
    bse_scrip_code status : Option String) (now : String) (r : StockRow) :
    StockRow :=
  { stock_id := r.stock_id
    symbol_nse := coalesce symbol_nse r.symbol_nse
    symbol_bse := coalesce symbol_bse r.symbol_bse
    company_name := coalesce company_name r.company_name
    isin := coalesce isin r.isin
    nse_series := coalesce nse_series r.nse_series
    bse_scrip_code := coalesce bse_scrip_code r.bse_scrip_code
    status := coalesce status r.status
    updated_utc := now }

/-- The row built by the INSERT branch of `upsert_stock` (database.py
lines 207-217): all seven normalised fields plus the current timestamp,
under the next AUTOINCREMENT id. -/
def insertRowOf (id : Nat) (s : StockUpsert) (now : String) : StockRow :=
  { stock_id := id
    symbol_nse := _norm s.symbol_nse
    symbol_bse := _norm s.symbol_bse
    company_name := _norm s.company_name
    isin := _norm s.isin
    nse_series := _norm s.nse_series
    bse_scrip_code := _norm s.bse_scrip_code
    status := _norm s.status
    updated_utc := now }

/-- The conflict-avoidance step of `upsert_stock` (database.py lines
219-225): a value already owned by another row is dropped from the
update. -/
def dropOwned (rows : List StockRow) (f : StockRow → Option String)
    (v : Option String) (selfId : Nat) : Option String :=
  if _value_owned_by_other rows f v selfId then none else v

/-- The effect of the UPDATE statement on one row: the matched row
receives the merged values (identity fields first run through the
conflict-avoidance drop), every other row is untouched. -/
def updFn (t : StocksTable) (s : StockUpsert) (now : String) (id : Nat)
    (r : StockRow) : StockRow :=
  if r.stock_id == id
  then updatedRow
    (dropOwned t.rows (fun q => q.symbol_nse) (_norm s.symbol_nse) id)
    (dropOwned t.rows (fun q => q.symbol_bse) (_norm s.symbol_bse) id)
    (_norm s.company_name)
    (dropOwned t.rows (fun q => q.isin) (_norm s.isin) id)
    (_norm s.nse_series) (_norm s.bse_scrip_code) (_norm s.status) now r
  else r

/-- The table produced by the UPDATE branch of `upsert_stock`. -/
def updateResult (t : StocksTable) (s : StockUpsert) (now : String)
    (id : Nat) : StocksTable :=
  { t with rows := t.rows.map (updFn t s now id) }

/-- `upsert_stock` (database.py lines 195-242).  `now` stands for
`utc_now_str()`.  `.error` models a sqlite3.IntegrityError raised by the
INSERT or UPDATE statement against one of the three partial unique
indexes; `.ok` carries the returned stock_id and the new table. -/
def upsert_stock (t : StocksTable) (s : StockUpsert) (now : String) :
    Except String (Nat × StocksTable) :=
  let isin := _norm s.isin
  let symbol_nse := _norm s.symbol_nse
  let symbol_bse := _norm s.symbol_bse
  match _find_stock_id t.rows isin symbol_nse symbol_bse with
  | none =>
    if uniqueViolation t.rows (fun q => q.isin) isin t.nextId
        || uniqueViolation t.rows (fun q => q.symbol_nse) symbol_nse t.nextId
        || uniqueViolation t.rows (fun q => q.symbol_bse) symbol_bse t.nextId
    then .error "UNIQUE constraint failed"
    else .ok (t.nextId,
      { rows := t.rows ++ [insertRowOf t.nextId s now], nextId := t.nextId + 1 })
  | some stock_id =>
    let symbol_nse := dropOwned t.rows (fun q => q.symbol_nse) symbol_nse stock_id
    let symbol_bse := dropOwned t.rows (fun q => q.symbol_bse) symbol_bse stock_id
    let isin := dropOwned t.rows (fun q => q.isin) isin stock_id
    match t.rows.find? (fun r => r.stock_id == stock_id) with
    | none => .ok (stock_id, t)
    | some r0 =>
      let newR := updatedRow symbol_nse symbol_bse (_norm s.company_name) isin
        (_norm s.nse_series) (_norm s.bse_scrip_code) (_norm s.status) now r0
      if uniqueViolation t.rows (fun q => q.symbol_nse) newR.symbol_nse stock_id
          || uniqueViolation t.rows (fun q => q.symbol_bse) newR.symbol_bse stock_id
          || uniqueViolation t.rows (fun q => q.isin) newR.isin stock_id
      then .error "UNIQUE constraint failed"
      else .ok (stock_id, updateResult t s now stock_id)

/-- A sequence of `upsert_stock` calls; an IntegrityError aborts the run
(the Python exception propagates). -/
def applyUpserts (t : StocksTable) : List (StockUpsert × String) → StocksTable
  | [] => t
  | (s, now) :: rest =>
    match upsert_stock t s now with
    | .ok (_, t1) => applyUpserts t1 rest
    | .error _ => t

/-! ### Invariants of the stocks table -/

/-- A string as `_norm` leaves it: non-empty and fully stripped. -/
def NormedStr (s : String) : Prop := s ≠ "" ∧ pyStrip s = s

instance (s : String) : Decidable (NormedStr s) :=
  inferInstanceAs (Decidable (s ≠ "" ∧ pyStrip s = s))

/-- A column value as `_norm` leaves it: NULL, or non-empty and stripped. -/
def NormedOpt : Option String → Prop
  | none => True
  | some s => NormedStr s

instance (v : Option String) : Decidable (NormedOpt v) :=
  match v with
  | none => .isTrue trivial
  | some s => inferInstanceAs (Decidable (NormedStr s))

/-- Every string column of the row is NULL or a non-empty stripped string. -/
def RowNormed (r : StockRow) : Prop :=
  NormedOpt r.symbol_nse ∧ NormedOpt r.symbol_bse ∧ NormedOpt r.company_name ∧
  NormedOpt r.isin ∧ NormedOpt r.nse_series ∧ NormedOpt r.bse_scrip_code ∧
  NormedOpt r.status

instance (r : StockRow) : Decidable (RowNormed r) := by
  unfold RowNormed; infer_instance

/-- Rows `a` and `b` collide on the column `f`: both hold the same
non-NULL, non-empty value (the condition of the partial unique indexes). -/
def FieldClash (f : StockRow → Option String) (a b : StockRow) : Prop :=
  f a ≠ none ∧ f a ≠ some "" ∧ f a = f b

instance (f : StockRow → Option String) (a b : StockRow) :
    Decidable (FieldClash f a b) :=
  inferInstanceAs (Decidable (_ ∧ _ ∧ _))

/-- No two rows of the list collide on the column `f`. -/
def UniqField (f : StockRow → Option String) (rows : List StockRow) : Prop :=
  rows.Pairwise (fun a b => ¬ FieldClash f a b)

instance (f : StockRow → Option String) (rows : List StockRow) :
    Decidable (UniqField f rows) :=
  inferInstanceAs (Decidable (List.Pairwise _ _))

/-- The uniqueness guaranteed by the three partial unique indexes: no two
rows share a non-empty ISIN, NSE symbol, or BSE symbol. -/
def StocksUniq (t : StocksTable) : Prop :=
  UniqField (fun r => r.isin) t.rows ∧
  UniqField (fun r => r.symbol_nse) t.rows ∧
  UniqField (fun r => r.symbol_bse) t.rows

instance (t : StocksTable) : Decidable (StocksUniq t) :=
  inferInstanceAs (Decidable (_ ∧ _ ∧ _))

/-- Full well-formedness of a stocks table as SQLite plus `upsert_stock`
maintain it: primary keys below the AUTOINCREMENT counter and pairwise
distinct, all values normalised, and the unique indexes respected. -/
def StoreInv (t : StocksTable) : Prop :=
  (∀ r ∈ t.rows, r.stock_id < t.nextId) ∧
  t.rows.Pairwise (fun a b => a.stock_id ≠ b.stock_id) ∧
  (∀ r ∈ t.rows, RowNormed r) ∧
  StocksUniq t

instance (t : StocksTable) : Decidable (StoreInv t) := by
  unfold StoreInv; infer_instance

instance {ε α : Type} [DecidableEq ε] [DecidableEq α] : DecidableEq (Except ε α)
  | .error a, .error b =>
    if h : a = b then .isTrue (by rw [h])
    else .isFalse (by intro he; cases he; exact h rfl)
  | .ok a, .ok b =>
    if h : a = b then .isTrue (by rw [h])
    else .isFalse (by intro he; cases he; exact h rfl)
  | .error _, .ok _ => .isFalse (by intro he; cases he)
  | .ok _, .error _ => .isFalse (by intro he; cases he)

/-! ### Lemmas: Python strip and `_norm` -/

theorem stripTrailing_cons (c : Char) (cs : List Char) :
    stripTrailing (c :: cs) =
      match stripTrailing cs with
      | [] => if isPySpace c then [] else [c]
      | r => c :: r := rfl

theorem dropWhile_head_false {α : Type} {p : α → Bool} {c : α} {cs : List α}
    (h : List.dropWhile p (c :: cs) = c :: cs) : p c = false := by
  by_cases hp : p c
  · rw [List.dropWhile_cons_of_pos hp] at h
    have hl := congrArg List.length h
    have hle := (List.dropWhile_sublist (l := cs) p).length_le
    simp only [List.length_cons] at hl
    omega
  · exact Bool.eq_false_iff.mpr hp

theorem dropWhile_stripTrailing {l : List Char}
    (h : l.dropWhile isPySpace = l) :
    (stripTrailing l).dropWhile isPySpace = stripTrailing l := by
  cases l with
  | nil => rfl
  | cons c cs =>
    have hc : isPySpace c = false := dropWhile_head_false h
    rw [stripTrailing_cons]
    cases stripTrailing cs with
    | nil =>
      simp only [hc, Bool.false_eq_true, if_false]
      exact List.dropWhile_cons_of_neg (by simp [hc])
    | cons x xs =>
      exact List.dropWhile_cons_of_neg (by simp [hc])

theorem stripTrailing_idem (l : List Char) :
    stripTrailing (stripTrailing l) = stripTrailing l := by
  induction l with
  | nil => rfl
  | cons c cs ih =>
    rw [stripTrailing_cons]
    cases hst : stripTrailing cs with
    | nil =>
      by_cases hc : isPySpace c
      · simp only [hc, if_true]; rfl
      · simp only [hc, Bool.false_eq_true, if_false]
        rw [stripTrailing_cons]
        simp [hc, stripTrailing]
    | cons x xs =>
      rw [hst] at ih
      rw [stripTrailing_cons, ih]

theorem pyStrip_idem (s : String) : pyStrip (pyStrip s) = pyStrip s := by
  have hfix : (s.data.dropWhile isPySpace).dropWhile isPySpace
      = s.data.dropWhile isPySpace := List.dropWhile_idempotent _ _
  show String.mk (stripTrailing
      ((stripTrailing (s.data.dropWhile isPySpace)).dropWhile isPySpace)) = _
  rw [dropWhile_stripTrailing hfix, stripTrailing_idem]
  rfl

/-- `_norm` always yields NULL or a non-empty stripped string. -/
theorem normedOpt_norm (v : Option String) : NormedOpt (_norm v) := by
  cases v with
  | none => trivial
  | some s =>
    show NormedOpt (let t := pyStrip s; if t = "" then none else some t)
    by_cases h : pyStrip s = ""
    · simp only [h, if_pos rfl]; trivial
    · simp only [if_neg h]
      exact ⟨h, pyStrip_idem s⟩

/-- `_norm` fixes already-normalised values. -/
theorem norm_of_normed {v : Option String} (h : NormedOpt v) : _norm v = v := by
  cases v with
  | none => rfl
  | some s =>
    obtain ⟨hne, hstrip⟩ := h
    show (let t := pyStrip s; if t = "" then none else some t) = some s
    rw [hstrip]
    exact if_neg hne

/-! ### Lemmas: lookups, ownership checks, unique-index checks -/

theorem FieldClash_symm (f : StockRow → Option String) :
    Symmetric (fun a b => ¬ FieldClash f a b) := by
  intro a b hab hba
  obtain ⟨h1, h2, h3⟩ := hba
  exact hab ⟨by rw [← h3]; exact h1, by rw [← h3]; exact h2, h3.symm⟩

theorem stockIdNe_symm : Symmetric
    (fun (a b : StockRow) => a.stock_id ≠ b.stock_id) := fun _ _ h => h.symm

/-- Two rows of a clash-free list holding the same non-empty value in a
column are the same row. -/
theorem uniqField_eq {f : StockRow → Option String} {rows : List StockRow}
    (hU : UniqField f rows) {a b : StockRow} (ha : a ∈ rows) (hb : b ∈ rows)
    {s : String} (hs : s ≠ "") (hfa : f a = some s) (hfb : f b = some s) :
    a = b := by
  by_contra hne
  exact List.Pairwise.forall (FieldClash_symm f) hU ha hb hne
    ⟨by simp [hfa], by simp [hfa, hs], by rw [hfa, hfb]⟩

/-- In a list with pairwise-distinct ids, `find?` by id returns exactly
the member that has the id. -/
theorem find_by_id {rows : List StockRow}
    (hIds : rows.Pairwise (fun a b => a.stock_id ≠ b.stock_id))
    {r : StockRow} (hr : r ∈ rows) :
    rows.find? (fun q => q.stock_id == r.stock_id) = some r := by
  cases hfind : rows.find? (fun q => q.stock_id == r.stock_id) with
  | none =>
    rw [List.find?_eq_none] at hfind
    exact absurd (by simp : (r.stock_id == r.stock_id) = true) (hfind r hr)
  | some r' =>
    have hp := List.find?_some hfind
    have hmem := List.mem_of_find?_eq_some hfind
    simp only [beq_iff_eq] at hp
    by_cases he : r' = r
    · rw [he]
    · exact absurd hp (List.Pairwise.forall stockIdNe_symm hIds hmem hr he)

theorem owned_false_iff {rows : List StockRow} {f : StockRow → Option String}
    {s : String} {selfId : Nat} (hs : s ≠ "") :
    _value_owned_by_other rows f (some s) selfId = false ↔
      ∀ r ∈ rows, r.stock_id ≠ selfId → f r ≠ some s := by
  show (if s = "" then false
    else rows.any (fun r => f r == some s && r.stock_id != selfId)) = false ↔ _
  rw [if_neg hs, List.any_eq_false]
  constructor
  · intro h r hr hid hf
    exact h r hr (by simp [hf, hid])
  · intro h r hr hp
    simp only [Bool.and_eq_true, beq_iff_eq, bne_iff_ne, ne_eq] at hp
    exact h r hr hp.2 hp.1

/-- The UPDATE-statement check and the pre-check of `upsert_stock` are the
same test. -/
theorem uniqueViolation_eq_owned (rows : List StockRow)
    (f : StockRow → Option String) (v : Option String) (i : Nat) :
    uniqueViolation rows f v i = _value_owned_by_other rows f v i := rfl

theorem uniqueViolation_false_of_only_self {rows : List StockRow}
    {f : StockRow → Option String} {v : Option String} {selfId : Nat}
    (h : ∀ r ∈ rows, ∀ s, v = some s → s ≠ "" → f r = some s →
      r.stock_id = selfId) :
    uniqueViolation rows f v selfId = false := by
  cases v with
  | none => rfl
  | some s =>
    by_cases hs : s = ""
    · show (if s = "" then false else _) = false
      rw [if_pos hs]
    · show (if s = "" then false else
        rows.any (fun r => f r == some s && r.stock_id != selfId)) = false
      rw [if_neg hs, List.any_eq_false]
      intro r hr hp
      simp only [Bool.and_eq_true, beq_iff_eq, bne_iff_ne, ne_eq] at hp
      exact hp.2 (h r hr s rfl hs hp.1)

theorem lookupKey_none_iff {rows : List StockRow}
    {f : StockRow → Option String} {s : String} (hs : s ≠ "") :
    lookupKey rows f (some s) = none ↔ ∀ r ∈ rows, f r ≠ some s := by
  show (if s = "" then none
    else match rows.find? (fun r => f r == some s) with
      | some r => some r.stock_id
      | none => none) = none ↔ _
  rw [if_neg hs]
  cases hfind : rows.find? (fun r => f r == some s) with
  | none =>
    rw [List.find?_eq_none] at hfind
    simpa using fun r hr hf => hfind r hr (by simp [hf])
  | some r' =>
    have hp := List.find?_some hfind
    have hmem := List.mem_of_find?_eq_some hfind
    simp only [beq_iff_eq] at hp
    simp only [reduceCtorEq, false_iff]
    intro hAll
    exact hAll r' hmem hp

theorem lookupKey_some_elim {rows : List StockRow}
    {f : StockRow → Option String} {v : Option String} {i : Nat}
    (h : lookupKey rows f v = some i) :
    ∃ s, v = some s ∧ s ≠ "" ∧
      ∃ r, rows.find? (fun q => f q == some s) = some r ∧
        r ∈ rows ∧ f r = some s ∧ r.stock_id = i := by
  cases v with
  | none => exact absurd h (by simp [lookupKey])
  | some s =>
    by_cases hs : s = ""
    · exact absurd h (by simp [lookupKey, hs])
    · refine ⟨s, rfl, hs, ?_⟩
      have h' : (match rows.find? (fun r => f r == some s) with
          | some r => some r.stock_id
          | none => none) = some i := by
        have he : lookupKey rows f (some s) = (if s = "" then none
          else match rows.find? (fun r => f r == some s) with
            | some r => some r.stock_id
            | none => none) := rfl
        rw [he, if_neg hs] at h
        exact h
      cases hfind : rows.find? (fun r => f r == some s) with
      | none => rw [hfind] at h'; exact absurd h' (by simp)
      | some r =>
        rw [hfind] at h'
        simp only [Option.some_inj] at h'
        have hp := List.find?_some hfind
        simp only [beq_iff_eq] at hp
        exact ⟨r, rfl, List.mem_of_find?_eq_some hfind, hp, h'⟩

/-- Decomposition of a failed identity resolution: none of the three keys
matched. -/
theorem find_stock_id_none {rows : List StockRow} {i n b : Option String}
    (h : _find_stock_id rows i n b = none) :
    lookupKey rows (fun r => r.isin) i = none ∧
    lookupKey rows (fun r => r.symbol_nse) n = none ∧
    lookupKey rows (fun r => r.symbol_bse) b = none := by
  unfold _find_stock_id at h
  cases h1 : lookupKey rows (fun r => r.isin) i with
  | some x => rw [h1] at h; exact absurd h (by simp)
  | none =>
    rw [h1] at h
    cases h2 : lookupKey rows (fun r => r.symbol_nse) n with
    | some x => rw [h2] at h; exact absurd h (by simp)
    | none => rw [h2] at h; exact ⟨rfl, rfl, h⟩

/-- A successful identity resolution returns the id of a member row. -/
theorem find_stock_id_mem {rows : List StockRow} {i n b : Option String}
    {x : Nat} (h : _find_stock_id rows i n b = some x) :
    ∃ r ∈ rows, r.stock_id = x := by
  unfold _find_stock_id at h
  cases h1 : lookupKey rows (fun r => r.isin) i with
  | some y =>
    rw [h1] at h
    have h2 : some y = some x := h
    obtain ⟨s, _, _, r, _, hm, _, hid⟩ := lookupKey_some_elim h1
    exact ⟨r, hm, by rw [hid]; exact Option.some_inj.mp h2⟩
  | none =>
    rw [h1] at h
    cases h2 : lookupKey rows (fun r => r.symbol_nse) n with
    | some y =>
      rw [h2] at h
      have h3 : some y = some x := h
      obtain ⟨s, _, _, r, _, hm, _, hid⟩ := lookupKey_some_elim h2
      exact ⟨r, hm, by rw [hid]; exact Option.some_inj.mp h3⟩
    | none =>
      rw [h2] at h
      have h3 : lookupKey rows (fun r => r.symbol_bse) b = some x := h
      obtain ⟨s, _, _, r, _, hm, _, hid⟩ := lookupKey_some_elim h3
      exact ⟨r, hm, hid⟩

/-! ### Lemmas: the two paths of `upsert_stock` -/

@[simp] theorem updatedRow_stock_id (a b c d e f g : Option String)
    (now : String) (r : StockRow) :
    (updatedRow a b c d e f g now r).stock_id = r.stock_id := rfl

@[simp] theorem updatedRow_symbol_nse (a b c d e f g : Option String)
    (now : String) (r : StockRow) :
    (updatedRow a b c d e f g now r).symbol_nse = coalesce a r.symbol_nse := rfl

@[simp] theorem updatedRow_symbol_bse (a b c d e f g : Option String)
    (now : String) (r : StockRow) :
    (updatedRow a b c d e f g now r).symbol_bse = coalesce b r.symbol_bse := rfl

@[simp] theorem updatedRow_company_name (a b c d e f g : Option String)
    (now : String) (r : StockRow) :
    (updatedRow a b c d e f g now r).company_name = coalesce c r.company_name := rfl

@[simp] theorem updatedRow_isin (a b c d e f g : Option String)
    (now : String) (r : StockRow) :
    (updatedRow a b c d e f g now r).isin = coalesce d r.isin := rfl

@[simp] theorem updatedRow_nse_series (a b c d e f g : Option String)
    (now : String) (r : StockRow) :
    (updatedRow a b c d e f g now r).nse_series = coalesce e r.nse_series := rfl

@[simp] theorem updatedRow_bse_scrip_code (a b c d e f g : Option String)
    (now : String) (r : StockRow) :
    (updatedRow a b c d e f g now r).bse_scrip_code = coalesce f r.bse_scrip_code := rfl

@[simp] theorem updatedRow_status (a b c d e f g : Option String)
    (now : String) (r : StockRow) :
    (updatedRow a b c d e f g now r).status = coalesce g r.status := rfl

@[simp] theorem updatedRow_updated_utc (a b c d e f g : Option String)
    (now : String) (r : StockRow) :
    (updatedRow a b c d e f g now r).updated_utc = now := rfl

@[simp] theorem coalesce_none (b : Option String) : coalesce none b = b := rfl

@[simp] theorem coalesce_some (a : String) (b : Option String) :
    coalesce (some a) b = some a := rfl

theorem uniqueViolation_false_of_lookup_none {rows : List StockRow}
    {f : StockRow → Option String} {v : Option String} (selfId : Nat)
    (hn : NormedOpt v) (h : lookupKey rows f v = none) :
    uniqueViolation rows f v selfId = false := by
  cases v with
  | none => rfl
  | some s =>
    obtain ⟨hs, _⟩ := hn
    apply uniqueViolation_false_of_only_self
    intro r hr s' hss' _ hf
    cases Option.some_inj.mp hss'
    exact absurd hf ((lookupKey_none_iff hs).mp h r hr)

/-- After the conflict-avoidance drop, the value the UPDATE writes back
(dropped-or-supplied merged with the matched row's stored value) never
violates the unique index. -/
theorem update_check_false {rows : List StockRow}
    {f : StockRow → Option String} (hU : UniqField f rows) {r0 : StockRow}
    (hmem : r0 ∈ rows) {id : Nat} (hid : r0.stock_id = id) (v : Option String) :
    uniqueViolation rows f (coalesce (dropOwned rows f v id) (f r0)) id
      = false := by
  have hself : uniqueViolation rows f (f r0) id = false := by
    apply uniqueViolation_false_of_only_self
    intro q hq s' hs' hne hfq
    rw [uniqField_eq hU hq hmem hne hfq hs']
    exact hid
  unfold dropOwned
  by_cases how : _value_owned_by_other rows f v id
  · rw [if_pos how, coalesce_none]
    exact hself
  · rw [if_neg how]
    cases v with
    | none => rw [coalesce_none]; exact hself
    | some sv =>
      rw [coalesce_some, uniqueViolation_eq_owned]
      exact Bool.eq_false_iff.mpr how

/-- The INSERT branch: when identity resolution fails, `upsert_stock`
appends one fresh row and returns the new id — with no integrity error,
since a failed lookup means none of the three keys is present. -/
theorem upsert_insert_ok (t : StocksTable) (s : StockUpsert) (now : String)
    (hfind : _find_stock_id t.rows (_norm s.isin) (_norm s.symbol_nse)
      (_norm s.symbol_bse) = none) :
    upsert_stock t s now = .ok (t.nextId,
      ⟨t.rows ++ [insertRowOf t.nextId s now], t.nextId + 1⟩) := by
  obtain ⟨h1, h2, h3⟩ := find_stock_id_none hfind
  have hv1 := uniqueViolation_false_of_lookup_none t.nextId
    (normedOpt_norm s.isin) h1
  have hv2 := uniqueViolation_false_of_lookup_none t.nextId
    (normedOpt_norm s.symbol_nse) h2
  have hv3 := uniqueViolation_false_of_lookup_none t.nextId
    (normedOpt_norm s.symbol_bse) h3
  simp only [upsert_stock]
  rw [hfind]
  simp only [hv1, hv2, hv3, Bool.or_self, Bool.or_false, Bool.false_eq_true,
    if_false]

/-- The UPDATE branch: when identity resolution finds a row of a
well-formed table, `upsert_stock` merges into that row and returns its id
— with no integrity error. -/
theorem upsert_update_ok (t : StocksTable) (s : StockUpsert) (now : String)
    (id : Nat) (hInv : StoreInv t)
    (hfind : _find_stock_id t.rows (_norm s.isin) (_norm s.symbol_nse)
      (_norm s.symbol_bse) = some id) :
    ∃ r0 ∈ t.rows, r0.stock_id = id ∧
      upsert_stock t s now = .ok (id, updateResult t s now id) := by
  obtain ⟨hlt, hIds, hNorm, hUi, hUn, hUb⟩ := hInv
  obtain ⟨r0, hmem, hid⟩ := find_stock_id_mem hfind
  have hfid : t.rows.find? (fun q => q.stock_id == id) = some r0 := by
    rw [← hid]; exact find_by_id hIds hmem
  refine ⟨r0, hmem, hid, ?_⟩
  have hc1 := update_check_false (f := fun q => q.symbol_nse) hUn hmem hid
    (_norm s.symbol_nse)
  have hc2 := update_check_false (f := fun q => q.symbol_bse) hUb hmem hid
    (_norm s.symbol_bse)
  have hc3 := update_check_false (f := fun q => q.isin) hUi hmem hid
    (_norm s.isin)
  simp only [upsert_stock]
  rw [hfind]
  show (match t.rows.find? (fun r => r.stock_id == id) with
    | none => Except.ok (id, t)
    | some r0 =>
      if uniqueViolation t.rows (fun q => q.symbol_nse)
          (updatedRow (dropOwned t.rows (fun q => q.symbol_nse) (_norm s.symbol_nse) id)
            (dropOwned t.rows (fun q => q.symbol_bse) (_norm s.symbol_bse) id)
            (_norm s.company_name)
            (dropOwned t.rows (fun q => q.isin) (_norm s.isin) id)
            (_norm s.nse_series) (_norm s.bse_scrip_code) (_norm s.status) now r0).symbol_nse id
        || uniqueViolation t.rows (fun q => q.symbol_bse)
          (updatedRow (dropOwned t.rows (fun q => q.symbol_nse) (_norm s.symbol_nse) id)
            (dropOwned t.rows (fun q => q.symbol_bse) (_norm s.symbol_bse) id)
            (_norm s.company_name)
            (dropOwned t.rows (fun q => q.isin) (_norm s.isin) id)
            (_norm s.nse_series) (_norm s.bse_scrip_code) (_norm s.status) now r0).symbol_bse id
        || uniqueViolation t.rows (fun q => q.isin)
          (updatedRow (dropOwned t.rows (fun q => q.symbol_nse) (_norm s.symbol_nse) id)
            (dropOwned t.rows (fun q => q.symbol_bse) (_norm s.symbol_bse) id)
            (_norm s.company_name)
            (dropOwned t.rows (fun q => q.isin) (_norm s.isin) id)
            (_norm s.nse_series) (_norm s.bse_scrip_code) (_norm s.status) now r0).isin id
      then Except.error "UNIQUE constraint failed"
      else Except.ok (id, updateResult t s now id))
    = Except.ok (id, updateResult t s now id)
  rw [hfid]
  simp only [updatedRow_symbol_nse, updatedRow_symbol_bse, updatedRow_isin,
    hc1, hc2, hc3, Bool.or_self, Bool.or_false, Bool.false_eq_true, if_false]

/-! ### Lemmas: `upsert_stock` preserves the table invariant -/

theorem uniqueViolation_false_elim {rows : List StockRow}
    {f : StockRow → Option String} {v : Option String} {selfId : Nat}
    (h : uniqueViolation rows f v selfId = false) {s : String}
    (hv : v = some s) (hs : s ≠ "") :
    ∀ q ∈ rows, q.stock_id ≠ selfId → f q ≠ some s := by
  subst hv
  rw [uniqueViolation_eq_owned] at h
  exact (owned_false_iff hs).mp h

theorem normedOpt_coalesce {a b : Option String} (ha : NormedOpt a)
    (hb : NormedOpt b) : NormedOpt (coalesce a b) := by
  cases a with
  | none => exact hb
  | some x => exact ha

theorem normedOpt_dropOwned {rows : List StockRow}
    {f : StockRow → Option String} {v : Option String} {selfId : Nat}
    (hv : NormedOpt v) : NormedOpt (dropOwned rows f v selfId) := by
  unfold dropOwned
  split
  · trivial
  · exact hv

theorem uniqField_append_single {f : StockRow → Option String}
    {rows : List StockRow} (hU : UniqField f rows) {r : StockRow}
    (hnew : ∀ q ∈ rows, ∀ s, f r = some s → s ≠ "" → f q ≠ some s) :
    UniqField f (rows ++ [r]) := by
  rw [UniqField, List.pairwise_append]
  refine ⟨hU, List.pairwise_singleton _ _, ?_⟩
  intro a ha b hb
  simp only [List.mem_singleton] at hb
  subst hb
  intro hcl
  obtain ⟨hne, hne2, heq⟩ := hcl
  cases hfa : f a with
  | none => exact hne hfa
  | some sa =>
    have hsa : sa ≠ "" := fun h => hne2 (by rw [hfa, h])
    exact hnew a ha sa (by rw [← heq, hfa]) hsa hfa

/-- Invariant preservation along the INSERT branch. -/
theorem storeInv_insert (t : StocksTable) (s : StockUpsert) (now : String)
    (hInv : StoreInv t)
    (hfind : _find_stock_id t.rows (_norm s.isin) (_norm s.symbol_nse)
      (_norm s.symbol_bse) = none) :
    StoreInv ⟨t.rows ++ [insertRowOf t.nextId s now], t.nextId + 1⟩ := by
  obtain ⟨hlt, hIds, hNorm, hUi, hUn, hUb⟩ := hInv
  obtain ⟨h1, h2, h3⟩ := find_stock_id_none hfind
  have hfreshI : ∀ q ∈ t.rows, ∀ sv, _norm s.isin = some sv → sv ≠ "" →
      q.isin ≠ some sv := by
    intro q hq sv hsv hs
    rw [hsv] at h1
    exact (lookupKey_none_iff hs).mp h1 q hq
  have hfreshN : ∀ q ∈ t.rows, ∀ sv, _norm s.symbol_nse = some sv → sv ≠ "" →
      q.symbol_nse ≠ some sv := by
    intro q hq sv hsv hs
    rw [hsv] at h2
    exact (lookupKey_none_iff hs).mp h2 q hq
  have hfreshB : ∀ q ∈ t.rows, ∀ sv, _norm s.symbol_bse = some sv → sv ≠ "" →
      q.symbol_bse ≠ some sv := by
    intro q hq sv hsv hs
    rw [hsv] at h3
    exact (lookupKey_none_iff hs).mp h3 q hq
  refine ⟨?_, ?_, ?_, ?_, ?_, ?_⟩
  · intro r hr
    rcases List.mem_append.mp hr with h | h
    · exact Nat.lt_succ_of_lt (hlt r h)
    · simp only [List.mem_singleton] at h
      subst h
      exact Nat.lt_succ_self _
  · rw [List.pairwise_append]
    refine ⟨hIds, List.pairwise_singleton _ _, ?_⟩
    intro a ha b hb
    simp only [List.mem_singleton] at hb
    subst hb
    exact Nat.ne_of_lt (hlt a ha)
  · intro r hr
    rcases List.mem_append.mp hr with h | h
    · exact hNorm r h
    · simp only [List.mem_singleton] at h
      subst h
      exact ⟨normedOpt_norm _, normedOpt_norm _, normedOpt_norm _,
        normedOpt_norm _, normedOpt_norm _, normedOpt_norm _, normedOpt_norm _⟩
  · exact uniqField_append_single hUi hfreshI
  · exact uniqField_append_single hUn hfreshN
  · exact uniqField_append_single hUb hfreshB

@[simp] theorem updFn_stock_id (t : StocksTable) (s : StockUpsert)
    (now : String) (id : Nat) (r : StockRow) :
    (updFn t s now id r).stock_id = r.stock_id := by
  unfold updFn
  split <;> rfl

theorem uniqField_map_upd {rows : List StockRow}
    {f : StockRow → Option String} (id : Nat) {g : StockRow → StockRow}
    {w : Option String}
    (hU : UniqField f rows)
    (hIds : rows.Pairwise (fun a b => a.stock_id ≠ b.stock_id))
    (hg : ∀ r ∈ rows, f (g r) =
      if r.stock_id = id then coalesce w (f r) else f r)
    (hviol : ∀ r0 ∈ rows, r0.stock_id = id →
      uniqueViolation rows f (coalesce w (f r0)) id = false) :
    UniqField f (rows.map g) := by
  rw [UniqField, List.pairwise_map]
  refine (hU.and hIds).imp_of_mem ?_
  intro a b ha hb hab hclash
  obtain ⟨hnc, hne⟩ := hab
  obtain ⟨hcn, hce, hceq⟩ := hclash
  by_cases haid : a.stock_id = id
  · have hbid : b.stock_id ≠ id := fun h => hne (haid.trans h.symm)
    rw [hg a ha, if_pos haid] at hcn hce hceq
    rw [hg b hb, if_neg hbid] at hceq
    cases hval : coalesce w (f a) with
    | none => exact hcn hval
    | some sv =>
      have hsv : sv ≠ "" := fun h => hce (by rw [hval, h])
      exact uniqueViolation_false_elim (hviol a ha haid) hval hsv b hb hbid
        (by rw [← hceq, hval])
  · by_cases hbid : b.stock_id = id
    · rw [hg a ha, if_neg haid] at hcn hce hceq
      rw [hg b hb, if_pos hbid] at hceq
      cases hval : f a with
      | none => exact hcn hval
      | some sv =>
        have hsv : sv ≠ "" := fun h => hce (by rw [hval, h])
        exact uniqueViolation_false_elim (hviol b hb hbid)
          (by rw [← hceq, hval]) hsv a ha haid hval
    · rw [hg a ha, if_neg haid] at hcn hce hceq
      rw [hg b hb, if_neg hbid] at hceq
      exact hnc ⟨hcn, hce, hceq⟩

/-- Invariant preservation along the UPDATE branch. -/
theorem storeInv_updateResult (t : StocksTable) (s : StockUpsert)
    (now : String) (id : Nat) (hInv : StoreInv t) :
    StoreInv (updateResult t s now id) := by
  obtain ⟨hlt, hIds, hNorm, hUi, hUn, hUb⟩ := hInv
  refine ⟨?_, ?_, ?_, ?_, ?_, ?_⟩
  · intro r hr
    obtain ⟨q, hq, hqr⟩ := List.mem_map.mp hr
    rw [← hqr, updFn_stock_id]
    exact hlt q hq
  · rw [updateResult, List.pairwise_map]
    exact hIds.imp (by intro a b h; simpa using h)
  · intro r hr
    obtain ⟨q, hq, hqr⟩ := List.mem_map.mp hr
    rw [← hqr]
    unfold updFn
    split
    · have hqn := hNorm q hq
      obtain ⟨n1, n2, n3, n4, n5, n6, n7⟩ := hqn
      exact ⟨normedOpt_coalesce (normedOpt_dropOwned (normedOpt_norm _)) n1,
        normedOpt_coalesce (normedOpt_dropOwned (normedOpt_norm _)) n2,
        normedOpt_coalesce (normedOpt_norm _) n3,
        normedOpt_coalesce (normedOpt_dropOwned (normedOpt_norm _)) n4,
        normedOpt_coalesce (normedOpt_norm _) n5,
        normedOpt_coalesce (normedOpt_norm _) n6,
        normedOpt_coalesce (normedOpt_norm _) n7⟩
    · exact hNorm q hq
  · refine uniqField_map_upd id (w := dropOwned t.rows (fun q => q.isin)
      (_norm s.isin) id) hUi hIds ?_ ?_
    · intro r _
      unfold updFn
      by_cases h : r.stock_id = id
      · simp [h]
      · simp [h]
    · intro r0 hm hi
      exact update_check_false hUi hm hi _
  · refine uniqField_map_upd id (w := dropOwned t.rows (fun q => q.symbol_nse)
      (_norm s.symbol_nse) id) hUn hIds ?_ ?_
    · intro r _
      unfold updFn
      by_cases h : r.stock_id = id
      · simp [h]
      · simp [h]
    · intro r0 hm hi
      exact update_check_false hUn hm hi _
  · refine uniqField_map_upd id (w := dropOwned t.rows (fun q => q.symbol_bse)
      (_norm s.symbol_bse) id) hUb hIds ?_ ?_
    · intro r _
      unfold updFn
      by_cases h : r.stock_id = id
      · simp [h]
      · simp [h]
    · intro r0 hm hi
      exact update_check_false hUb hm hi _

/-- On a well-formed table `upsert_stock` never raises and preserves
well-formedness. -/
theorem upsert_preserves (t : StocksTable) (s : StockUpsert) (now : String)
    (hInv : StoreInv t) :
    ∃ id t1, upsert_stock t s now = .ok (id, t1) ∧ StoreInv t1 := by
  cases hfind : _find_stock_id t.rows (_norm s.isin) (_norm s.symbol_nse)
    (_norm s.symbol_bse) with
  | none =>
    exact ⟨t.nextId, _, upsert_insert_ok t s now hfind,
      storeInv_insert t s now hInv hfind⟩
  | some id =>
    obtain ⟨r0, hmem, hid, heq⟩ := upsert_update_ok t s now id hInv hfind
    exact ⟨id, _, heq, storeInv_updateResult t s now id hInv⟩

theorem storeInv_empty : StoreInv emptyStocks := by decide

theorem storeInv_applyUpserts (ops : List (StockUpsert × String))
    (t : StocksTable) (hInv : StoreInv t) :
    StoreInv (applyUpserts t ops) := by
  induction ops generalizing t with
  | nil => exact hInv
  | cons op rest ih =>
    obtain ⟨a, b⟩ := op
    obtain ⟨id, t1, heq, hInv1⟩ := upsert_preserves t a b hInv
    show StoreInv (applyUpserts t ((a, b) :: rest))
    unfold applyUpserts
    rw [heq]
    exact ih t1 hInv1

/-- All string columns of every row of the table are normalised. -/
def StoreNormed (t : StocksTable) : Prop := ∀ r ∈ t.rows, RowNormed r

/-! ### Claim theorems: C1 and C9 -/

/-- C1: for every sequence of calls to `upsert_stock` starting from an
empty store, no two rows of the stocks table ever share the same non-empty
ISIN, the same non-empty NSE symbol, or the same non-empty BSE symbol
(`StocksUniq` quantifies only over non-NULL, non-empty values, exactly as
the schema's partial unique indexes do). -/
theorem upsert_sequences_preserve_uniqueness :
    ∀ ops : List (StockUpsert × String),
      StocksUniq (applyUpserts emptyStocks ops) := by
  intro ops
  obtain ⟨-, -, -, hU⟩ := storeInv_applyUpserts ops emptyStocks storeInv_empty
  exact hU

/-- C9: after any sequence of `upsert_stock` calls starting from an empty
store, every string field of every stocks row is NULL or a non-empty
string with no leading or trailing whitespace; and `_norm` maps every
whitespace-only input to NULL, so such an input is never stored as an
empty string. -/
theorem upsert_fields_normalised :
    ∀ ops : List (StockUpsert × String),
      StoreNormed (applyUpserts emptyStocks ops) ∧
        (∀ s : String, pyStrip s = "" → _norm (some s) = none) := by
  intro ops
  constructor
  · obtain ⟨-, -, hN, -⟩ := storeInv_applyUpserts ops emptyStocks storeInv_empty
    exact hN
  · intro s h
    show (let t := pyStrip s; if t = "" then none else some t) = none
    rw [h]
    exact if_pos rfl

/-! ### Lemmas: resolved lookups on well-formed tables -/

theorem lookupKey_none_val (rows : List StockRow)
    (f : StockRow → Option String) : lookupKey rows f none = none := rfl

/-- Two member rows with the same id are the same row. -/
theorem mem_id_inj {rows : List StockRow}
    (hIds : rows.Pairwise (fun a b => a.stock_id ≠ b.stock_id))
    {a b : StockRow} (ha : a ∈ rows) (hb : b ∈ rows)
    (h : a.stock_id = b.stock_id) : a = b := by
  by_contra hne
  exact List.Pairwise.forall stockIdNe_symm hIds ha hb hne h

theorem owned_true_intro {rows : List StockRow}
    {f : StockRow → Option String} {s : String} {selfId : Nat} (hs : s ≠ "")
    {q : StockRow} (hq : q ∈ rows) (hf : f q = some s)
    (hne : q.stock_id ≠ selfId) :
    _value_owned_by_other rows f (some s) selfId = true := by
  show (if s = "" then false
    else rows.any (fun r => f r == some s && r.stock_id != selfId)) = true
  rw [if_neg hs, List.any_eq_true]
  exact ⟨q, hq, by simp [hf, hne]⟩

/-- On a clash-free table a key lookup lands on the (unique) holder. -/
theorem lookupKey_unique {rows : List StockRow}
    {f : StockRow → Option String} (hU : UniqField f rows) {r : StockRow}
    (hr : r ∈ rows) {s : String} (hs : s ≠ "") (hf : f r = some s) :
    lookupKey rows f (some s) = some r.stock_id := by
  show (if s = "" then none
    else match rows.find? (fun q => f q == some s) with
      | some q => some q.stock_id
      | none => none) = some r.stock_id
  rw [if_neg hs]
  cases hfind : rows.find? (fun q => f q == some s) with
  | none =>
    rw [List.find?_eq_none] at hfind
    exact absurd (by simp [hf] : (f r == some s) = true) (hfind r hr)
  | some r' =>
    have hp := List.find?_some hfind
    simp only [beq_iff_eq] at hp
    show some r'.stock_id = some r.stock_id
    rw [uniqField_eq hU (List.mem_of_find?_eq_some hfind) hr hs hp hf]

/-- When every holder of the value carries the id, the lookup (if any
holder exists) returns the id. -/
theorem lookupKey_id_of_all {rows : List StockRow}
    {f : StockRow → Option String} {s : String} {id : Nat} (hs : s ≠ "")
    (hex : ∃ r ∈ rows, f r = some s)
    (hall : ∀ r ∈ rows, f r = some s → r.stock_id = id) :
    lookupKey rows f (some s) = some id := by
  show (if s = "" then none
    else match rows.find? (fun q => f q == some s) with
      | some q => some q.stock_id
      | none => none) = some id
  rw [if_neg hs]
  cases hfind : rows.find? (fun q => f q == some s) with
  | none =>
    rw [List.find?_eq_none] at hfind
    obtain ⟨r, hr, hf⟩ := hex
    exact absurd (by simp [hf] : (f r == some s) = true) (hfind r hr)
  | some r' =>
    have hp := List.find?_some hfind
    simp only [beq_iff_eq] at hp
    show some r'.stock_id = some id
    rw [hall r' (List.mem_of_find?_eq_some hfind) hp]

theorem holders_id_of_lookup_some {rows : List StockRow}
    {f : StockRow → Option String} {s : String} {id : Nat}
    (hU : UniqField f rows) (hs : s ≠ "")
    (h : lookupKey rows f (some s) = some id) :
    ∀ q ∈ rows, f q = some s → q.stock_id = id := by
  obtain ⟨s', hs', -, r, -, hrm, hrf, hrid⟩ := lookupKey_some_elim h
  cases Option.some_inj.mp hs'
  intro q hq hqf
  rw [uniqField_eq hU hq hrm hs hqf hrf]
  exact hrid

/-! ### Claim theorem: C2 (identity priority with symbol conflict) -/

/-- C2: if the store holds an entity `e1` with the candidate's ISIN `X`
and a distinct entity `e2` owning the candidate's NSE symbol `Y`, then
`upsert_stock` updates `e1` (ISIN `X` kept, company name applied when
supplied), leaves `e1`'s NSE symbol unchanged (the conflicting `Y` is
dropped from the write), and raises no integrity error. -/
theorem conflict_update_targets_isin_match
    (t : StocksTable) (s : StockUpsert) (now : String)
    (e1 e2 : StockRow) (X Y : String)
    (hInv : StoreInv t)
    (he1 : e1 ∈ t.rows) (he2 : e2 ∈ t.rows)
    (hne : e2.stock_id ≠ e1.stock_id)
    (hX : _norm s.isin = some X) (he1X : e1.isin = some X)
    (hY : _norm s.symbol_nse = some Y) (he2Y : e2.symbol_nse = some Y) :
    ∃ t1, upsert_stock t s now = .ok (e1.stock_id, t1) ∧
      ∀ r ∈ t1.rows, r.stock_id = e1.stock_id →
        r.isin = some X ∧
        r.symbol_nse = e1.symbol_nse ∧
        (∀ c, _norm s.company_name = some c → r.company_name = some c) ∧
        r.updated_utc = now := by
  obtain ⟨hlt, hIds, hNorm, hUi, hUn, hUb⟩ := hInv
  have hXne : X ≠ "" := by
    have := normedOpt_norm s.isin
    rw [hX] at this
    exact this.1
  have hYne : Y ≠ "" := by
    have := normedOpt_norm s.symbol_nse
    rw [hY] at this
    exact this.1
  have hfind : _find_stock_id t.rows (_norm s.isin) (_norm s.symbol_nse)
      (_norm s.symbol_bse) = some e1.stock_id := by
    unfold _find_stock_id
    rw [hX, lookupKey_unique hUi he1 hXne he1X]
  obtain ⟨r0, hmem, hid, heq⟩ := upsert_update_ok t s now e1.stock_id
    ⟨hlt, hIds, hNorm, hUi, hUn, hUb⟩ hfind
  have hr0e1 : r0 = e1 := mem_id_inj hIds hmem he1 hid
  subst hr0e1
  refine ⟨updateResult t s now r0.stock_id, heq, ?_⟩
  intro r hr hrid
  obtain ⟨q, hq, hqr⟩ := List.mem_map.mp hr
  have hqid : q.stock_id = r0.stock_id := by
    rw [← hrid, ← hqr, updFn_stock_id]
  have hqr0 : q = r0 := mem_id_inj hIds hq hmem hqid
  subst hqr0
  have hownedI : _value_owned_by_other t.rows (fun w => w.isin)
      (_norm s.isin) q.stock_id = false := by
    rw [hX]
    rw [owned_false_iff hXne]
    intro w hw hwid hwX
    exact hwid ((uniqField_eq hUi hw hq hXne hwX he1X) ▸ rfl)
  have hownedN : _value_owned_by_other t.rows (fun w => w.symbol_nse)
      (_norm s.symbol_nse) q.stock_id = true := by
    rw [hY]
    exact owned_true_intro hYne he2 he2Y hne
  rw [← hqr]
  unfold updFn
  rw [if_pos (by simp)]
  refine ⟨?_, ?_, ?_, rfl⟩
  · rw [updatedRow_isin]
    unfold dropOwned
    rw [hownedI, if_neg (by simp), hX, coalesce_some]
  · rw [updatedRow_symbol_nse]
    unfold dropOwned
    rw [hownedN, if_pos rfl, coalesce_none]
  · intro c hc
    rw [updatedRow_company_name, hc, coalesce_some]

/-- The only row of the updated table carrying the target id is the
updated image of the resolved row. -/
theorem updateResult_target_row {t : StocksTable} {s : StockUpsert}
    {now : String} {id : Nat}
    (hIds : t.rows.Pairwise (fun a b => a.stock_id ≠ b.stock_id))
    {r0 : StockRow} (hmem : r0 ∈ t.rows) (hid : r0.stock_id = id)
    {r : StockRow} (hr : r ∈ (updateResult t s now id).rows)
    (hrid : r.stock_id = id) : r = updFn t s now id r0 := by
  obtain ⟨q, hq, hqr⟩ := List.mem_map.mp hr
  have hqid : q.stock_id = id := by rw [← hrid, ← hqr, updFn_stock_id]
  have : q = r0 := mem_id_inj hIds hq hmem (hqid.trans hid.symm)
  rw [← hqr, this]

/-! ### Claim theorem: C8 (merge semantics of the update path) -/

/-- C8 (amended): for a well-formed store and a candidate that resolves to
an existing row, the update raises no error, refreshes the timestamp, and
applies supplied-value-wins/else-keep merging; a populated stored field is
never overwritten with a blank.  The one exception the code makes — which
the original claim omits — is a supplied identity value (NSE symbol, BSE
symbol, ISIN) already owned by a different entity: it is dropped from the
write and the stored value kept. -/
theorem update_merge_semantics (t : StocksTable) (s : StockUpsert)
    (now : String) (id : Nat) (hInv : StoreInv t)
    (hfind : _find_stock_id t.rows (_norm s.isin) (_norm s.symbol_nse)
      (_norm s.symbol_bse) = some id) :
    ∃ r0 ∈ t.rows, r0.stock_id = id ∧
      upsert_stock t s now = .ok (id, updateResult t s now id) ∧
      ∀ r ∈ (updateResult t s now id).rows, r.stock_id = id →
        r.updated_utc = now ∧
        (∀ c, _norm s.company_name = some c → r.company_name = some c) ∧
        (_norm s.company_name = none → r.company_name = r0.company_name) ∧
        (∀ c, _norm s.nse_series = some c → r.nse_series = some c) ∧
        (_norm s.nse_series = none → r.nse_series = r0.nse_series) ∧
        (∀ c, _norm s.bse_scrip_code = some c → r.bse_scrip_code = some c) ∧
        (_norm s.bse_scrip_code = none → r.bse_scrip_code = r0.bse_scrip_code) ∧
        (∀ c, _norm s.status = some c → r.status = some c) ∧
        (_norm s.status = none → r.status = r0.status) ∧
        (∀ c, _norm s.symbol_nse = some c →
          _value_owned_by_other t.rows (fun q => q.symbol_nse) (some c) id
            = false → r.symbol_nse = some c) ∧
        (_norm s.symbol_nse = none ∨
          _value_owned_by_other t.rows (fun q => q.symbol_nse)
            (_norm s.symbol_nse) id = true → r.symbol_nse = r0.symbol_nse) ∧
        (∀ c, _norm s.symbol_bse = some c →
          _value_owned_by_other t.rows (fun q => q.symbol_bse) (some c) id
            = false → r.symbol_bse = some c) ∧
        (_norm s.symbol_bse = none ∨
          _value_owned_by_other t.rows (fun q => q.symbol_bse)
            (_norm s.symbol_bse) id = true → r.symbol_bse = r0.symbol_bse) ∧
        (∀ c, _norm s.isin = some c →
          _value_owned_by_other t.rows (fun q => q.isin) (some c) id
            = false → r.isin = some c) ∧
        (_norm s.isin = none ∨
          _value_owned_by_other t.rows (fun q => q.isin)
            (_norm s.isin) id = true → r.isin = r0.isin) := by
  obtain ⟨r0, hmem, hid, heq⟩ := upsert_update_ok t s now id hInv hfind
  refine ⟨r0, hmem, hid, heq, ?_⟩
  intro r hr hrid
  rw [updateResult_target_row hInv.2.1 hmem hid hr hrid]
  unfold updFn
  rw [if_pos (by simp [hid])]
  refine ⟨rfl, ?_, ?_, ?_, ?_, ?_, ?_, ?_, ?_, ?_, ?_, ?_, ?_, ?_, ?_⟩
  · intro c hc; rw [updatedRow_company_name, hc, coalesce_some]
  · intro hc; rw [updatedRow_company_name, hc, coalesce_none]
  · intro c hc; rw [updatedRow_nse_series, hc, coalesce_some]
  · intro hc; rw [updatedRow_nse_series, hc, coalesce_none]
  · intro c hc; rw [updatedRow_bse_scrip_code, hc, coalesce_some]
  · intro hc; rw [updatedRow_bse_scrip_code, hc, coalesce_none]
  · intro c hc; rw [updatedRow_status, hc, coalesce_some]
  · intro hc; rw [updatedRow_status, hc, coalesce_none]
  · intro c hc hown
    rw [updatedRow_symbol_nse]
    unfold dropOwned
    rw [hc, hown, if_neg (by simp), coalesce_some]
  · intro hc
    rw [updatedRow_symbol_nse]
    unfold dropOwned
    rcases hc with hc | hc
    · rw [hc]
      show coalesce (if _value_owned_by_other t.rows (fun q => q.symbol_nse)
        none id = true then none else none) r0.symbol_nse = r0.symbol_nse
      split <;> rw [coalesce_none]
    · rw [hc, if_pos rfl, coalesce_none]
  · intro c hc hown
    rw [updatedRow_symbol_bse]
    unfold dropOwned
    rw [hc, hown, if_neg (by simp), coalesce_some]
  · intro hc
    rw [updatedRow_symbol_bse]
    unfold dropOwned
    rcases hc with hc | hc
    · rw [hc]
      show coalesce (if _value_owned_by_other t.rows (fun q => q.symbol_bse)
        none id = true then none else none) r0.symbol_bse = r0.symbol_bse
      split <;> rw [coalesce_none]
    · rw [hc, if_pos rfl, coalesce_none]
  · intro c hc hown
    rw [updatedRow_isin]
    unfold dropOwned
    rw [hc, hown, if_neg (by simp), coalesce_some]
  · intro hc
    rw [updatedRow_isin]
    unfold dropOwned
    rcases hc with hc | hc
    · rw [hc]
      show coalesce (if _value_owned_by_other t.rows (fun q => q.isin)
        none id = true then none else none) r0.isin = r0.isin
      split <;> rw [coalesce_none]
    · rw [hc, if_pos rfl, coalesce_none]

/-- Concrete store for the C8 counterexample: entity 1 owns ISIN IN1 and
NSE symbol AAA; entity 2 owns NSE symbol BBB. -/
def c8Row1 : StockRow :=
  ⟨1, some "AAA", none, none, some "IN1", none, none, none, "t0"⟩

def c8Row2 : StockRow :=
  ⟨2, some "BBB", none, none, none, none, none, none, "t0"⟩

def c8Table : StocksTable := ⟨[c8Row1, c8Row2], 3⟩

/-- Candidate resolving (by ISIN) to entity 1 while supplying entity 2's
NSE symbol. -/
def c8Cand : StockUpsert := { isin := some "IN1", symbol_nse := some "BBB" }

/-- C8 counterexample: the candidate resolves to entity 1 and supplies the
non-blank NSE symbol BBB, yet the update does not write it — entity 1
keeps AAA (the supplied value is dropped because entity 2 owns it), so the
claim that every supplied non-blank field value is written is false. -/
theorem update_merge_counterexample :
    upsert_stock c8Table c8Cand "t1" = .ok (1,
      ⟨[⟨1, some "AAA", none, none, some "IN1", none, none, none, "t1"⟩,
        c8Row2], 3⟩) ∧ (some "AAA" : Option String) ≠ some "BBB" := by
  constructor
  · decide
  · decide

/-! ### Lemmas: resolving the same candidate again after an upsert -/

theorem lookupKey_none_find {rows : List StockRow}
    {f : StockRow → Option String} {s : String} (hs : s ≠ "")
    (h : lookupKey rows f (some s) = none) :
    rows.find? (fun r => f r == some s) = none := by
  have he : lookupKey rows f (some s) = (if s = "" then none
    else match rows.find? (fun r => f r == some s) with
      | some r => some r.stock_id
      | none => none) := rfl
  rw [he, if_neg hs] at h
  cases hfind : rows.find? (fun r => f r == some s) with
  | none => rfl
  | some r => rw [hfind] at h; exact absurd h (by simp)

theorem lookupKey_append {rows r2 : List StockRow}
    {f : StockRow → Option String} {v : Option String}
    (hnone : lookupKey rows f v = none) :
    lookupKey (rows ++ r2) f v = lookupKey r2 f v := by
  cases v with
  | none => rfl
  | some s =>
    by_cases hs : s = ""
    · show (if s = "" then none else _) = (if s = "" then none else _)
      rw [if_pos hs, if_pos hs]
    · show (if s = "" then none
        else match (rows ++ r2).find? (fun r => f r == some s) with
          | some r => some r.stock_id
          | none => none)
        = (if s = "" then none
        else match r2.find? (fun r => f r == some s) with
          | some r => some r.stock_id
          | none => none)
      rw [if_neg hs, if_neg hs, List.find?_append,
        lookupKey_none_find hs hnone]
      rfl

theorem lookupKey_single {r : StockRow} {f : StockRow → Option String}
    {s : String} (hs : s ≠ "") (hf : f r = some s) :
    lookupKey [r] f (some s) = some r.stock_id := by
  show (if s = "" then none
    else match [r].find? (fun q => f q == some s) with
      | some q => some q.stock_id
      | none => none) = some r.stock_id
  rw [if_neg hs]
  rw [List.find?_cons_of_pos _ (by simp [hf])]

/-- After a fresh insert the same candidate resolves to the new row. -/
theorem find_stock_id_after_insert (t : StocksTable) (s : StockUpsert)
    (n1 : String)
    (hfind : _find_stock_id t.rows (_norm s.isin) (_norm s.symbol_nse)
      (_norm s.symbol_bse) = none)
    (hkey : _norm s.isin ≠ none ∨ _norm s.symbol_nse ≠ none ∨
      _norm s.symbol_bse ≠ none) :
    _find_stock_id (t.rows ++ [insertRowOf t.nextId s n1]) (_norm s.isin)
      (_norm s.symbol_nse) (_norm s.symbol_bse) = some t.nextId := by
  obtain ⟨h1, h2, h3⟩ := find_stock_id_none hfind
  unfold _find_stock_id
  cases hI : _norm s.isin with
  | some v =>
    have hvne : v ≠ "" := by
      have := normedOpt_norm s.isin
      rw [hI] at this
      exact this.1
    rw [lookupKey_append (hI ▸ h1),
      lookupKey_single hvne (show (insertRowOf t.nextId s n1).isin = some v
        from by rw [insertRowOf]; exact hI)]
    rfl
  | none =>
    rw [lookupKey_none_val]
    cases hN : _norm s.symbol_nse with
    | some w =>
      have hwne : w ≠ "" := by
        have := normedOpt_norm s.symbol_nse
        rw [hN] at this
        exact this.1
      rw [lookupKey_append (hN ▸ h2),
        lookupKey_single hwne
          (show (insertRowOf t.nextId s n1).symbol_nse = some w
            from by rw [insertRowOf]; exact hN)]
      rfl
    | none =>
      rw [lookupKey_none_val]
      cases hB : _norm s.symbol_bse with
      | some x =>
        have hxne : x ≠ "" := by
          have := normedOpt_norm s.symbol_bse
          rw [hB] at this
          exact this.1
        rw [lookupKey_append (hB ▸ h3),
          lookupKey_single hxne
            (show (insertRowOf t.nextId s n1).symbol_bse = some x
              from by rw [insertRowOf]; exact hB)]
        rfl
      | none =>
        rcases hkey with hk | hk | hk
        · exact absurd hI hk
        · exact absurd hN hk
        · exact absurd hB hk

/-- One resolution arm evaluated against the updated table: when every
holder of the key in the old table carries the target id, the arm resolves
to the target id in the updated table too (the merged row keeps or gains
the key value). -/
theorem lookup_arm_after_update {t : StocksTable} {s : StockUpsert}
    {n1 : String} {id : Nat} {f : StockRow → Option String}
    {vsel : Option String} {v : String}
    (hg : ∀ r, f (updFn t s n1 id r) =
      if r.stock_id = id then coalesce (dropOwned t.rows f vsel id) (f r)
      else f r)
    (hkey : vsel = some v) (hvne : v ≠ "")
    {r0 : StockRow} (hmem : r0 ∈ t.rows) (hid : r0.stock_id = id)
    (hall : ∀ q ∈ t.rows, f q = some v → q.stock_id = id) :
    lookupKey (updateResult t s n1 id).rows f (some v) = some id := by
  have hownfalse : _value_owned_by_other t.rows f vsel id = false := by
    rw [hkey, owned_false_iff hvne]
    intro q hq hqid hqf
    exact hqid (hall q hq hqf)
  apply lookupKey_id_of_all hvne
  · refine ⟨updFn t s n1 id r0, List.mem_map_of_mem _ hmem, ?_⟩
    rw [hg r0, if_pos hid]
    unfold dropOwned
    rw [hownfalse, if_neg (by simp), hkey, coalesce_some]
  · intro q' hq' hq'f
    obtain ⟨q, hq, hqq'⟩ := List.mem_map.mp hq'
    by_cases hqid : q.stock_id = id
    · rw [← hqq', updFn_stock_id]
      exact hqid
    · rw [← hqq', hg q, if_neg hqid] at hq'f
      exact absurd (hall q hq hq'f) hqid

/-- After an update the same candidate resolves to the same row. -/
theorem find_stock_id_after_update (t : StocksTable) (s : StockUpsert)
    (n1 : String) (id : Nat) (hInv : StoreInv t)
    (hfind : _find_stock_id t.rows (_norm s.isin) (_norm s.symbol_nse)
      (_norm s.symbol_bse) = some id) :
    _find_stock_id (updateResult t s n1 id).rows (_norm s.isin)
      (_norm s.symbol_nse) (_norm s.symbol_bse) = some id := by
  obtain ⟨hlt, hIds, hNorm, hUi, hUn, hUb⟩ := hInv
  obtain ⟨r0, hmem, hid⟩ := find_stock_id_mem hfind
  have hgI : ∀ r, (updFn t s n1 id r).isin =
      if r.stock_id = id
      then coalesce (dropOwned t.rows (fun q => q.isin) (_norm s.isin) id)
        r.isin
      else r.isin := by
    intro r
    unfold updFn
    by_cases h : r.stock_id = id
    · simp [h]
    · simp [h]
  have hgN : ∀ r, (updFn t s n1 id r).symbol_nse =
      if r.stock_id = id
      then coalesce
        (dropOwned t.rows (fun q => q.symbol_nse) (_norm s.symbol_nse) id)
        r.symbol_nse
      else r.symbol_nse := by
    intro r
    unfold updFn
    by_cases h : r.stock_id = id
    · simp [h]
    · simp [h]
  have hgB : ∀ r, (updFn t s n1 id r).symbol_bse =
      if r.stock_id = id
      then coalesce
        (dropOwned t.rows (fun q => q.symbol_bse) (_norm s.symbol_bse) id)
        r.symbol_bse
      else r.symbol_bse := by
    intro r
    unfold updFn
    by_cases h : r.stock_id = id
    · simp [h]
    · simp [h]
  unfold _find_stock_id at hfind ⊢
  cases hI : _norm s.isin with
  | some v =>
    have hvne : v ≠ "" := by
      have := normedOpt_norm s.isin
      rw [hI] at this
      exact this.1
    have hall : ∀ q ∈ t.rows, q.isin = some v → q.stock_id = id := by
      cases hL1 : lookupKey t.rows (fun r => r.isin) (some v) with
      | some j =>
        rw [hI, hL1] at hfind
        have hj : some j = some id := hfind
        exact Option.some_inj.mp hj ▸ holders_id_of_lookup_some hUi hvne hL1
      | none =>
        intro q hq hqf
        exact absurd hqf ((lookupKey_none_iff hvne).mp hL1 q hq)
    rw [lookup_arm_after_update hgI hI hvne hmem hid hall]
  | none =>
    rw [lookupKey_none_val]
    rw [hI, lookupKey_none_val] at hfind
    cases hN : _norm s.symbol_nse with
    | some w =>
      have hwne : w ≠ "" := by
        have := normedOpt_norm s.symbol_nse
        rw [hN] at this
        exact this.1
      have hall : ∀ q ∈ t.rows, q.symbol_nse = some w → q.stock_id = id := by
        cases hL2 : lookupKey t.rows (fun r => r.symbol_nse) (some w) with
        | some j =>
          rw [hN, hL2] at hfind
          have hj : some j = some id := hfind
          exact Option.some_inj.mp hj ▸ holders_id_of_lookup_some hUn hwne hL2
        | none =>
          intro q hq hqf
          exact absurd hqf ((lookupKey_none_iff hwne).mp hL2 q hq)
      rw [lookup_arm_after_update hgN hN hwne hmem hid hall]
    | none =>
      rw [lookupKey_none_val]
      rw [hN, lookupKey_none_val] at hfind
      cases hB : _norm s.symbol_bse with
      | some x =>
        have hxne : x ≠ "" := by
          have := normedOpt_norm s.symbol_bse
          rw [hB] at this
          exact this.1
        have hall : ∀ q ∈ t.rows, q.symbol_bse = some x → q.stock_id = id := by
          rw [hB] at hfind
          exact holders_id_of_lookup_some hUb hxne hfind
        rw [lookup_arm_after_update hgB hB hxne hmem hid hall]
      | none =>
        rw [hB, lookupKey_none_val] at hfind
        exact absurd hfind (by simp)

/-! ### Claim theorem: C3 (idempotence of the upsert) -/

/-- C3 (amended): on a table satisfying the schema invariants, upserting
the same candidate twice returns the same stock id both times and the
second call adds no row — provided the candidate carries at least one
usable identifying key (non-blank ISIN, NSE symbol or BSE symbol). -/
theorem upsert_idempotent_with_key (t : StocksTable) (s : StockUpsert)
    (n1 n2 : String) (hInv : StoreInv t)
    (hkey : _norm s.isin ≠ none ∨ _norm s.symbol_nse ≠ none ∨
      _norm s.symbol_bse ≠ none) :
    ∃ id t1 t2, upsert_stock t s n1 = .ok (id, t1) ∧
      upsert_stock t1 s n2 = .ok (id, t2) ∧
      t2.rows.length = t1.rows.length := by
  cases hfind : _find_stock_id t.rows (_norm s.isin) (_norm s.symbol_nse)
    (_norm s.symbol_bse) with
  | none =>
    have heq1 := upsert_insert_ok t s n1 hfind
    have hInv1 := storeInv_insert t s n1 hInv hfind
    have hfind2 := find_stock_id_after_insert t s n1 hfind hkey
    obtain ⟨r0, hm, hi, heq2⟩ := upsert_update_ok
      ⟨t.rows ++ [insertRowOf t.nextId s n1], t.nextId + 1⟩ s n2 t.nextId
      hInv1 hfind2
    exact ⟨t.nextId, _, _, heq1, heq2, by simp [updateResult]⟩
  | some id =>
    obtain ⟨r0, hm, hi, heq1⟩ := upsert_update_ok t s n1 id hInv hfind
    have hInv1 := storeInv_updateResult t s n1 id hInv
    have hfind2 := find_stock_id_after_update t s n1 id hInv hfind
    obtain ⟨r1, hm1, hi1, heq2⟩ := upsert_update_ok (updateResult t s n1 id)
      s n2 id hInv1 hfind2
    exact ⟨id, _, _, heq1, heq2, by simp [updateResult]⟩

/-- C3 counterexample: a candidate with no identifying key at all (the
upsert engine's documented bare-entity edge case) is not idempotent — the
second call returns a different id (2, not 1) and the table grows from one
row to two. -/
theorem upsert_no_key_not_idempotent :
    upsert_stock emptyStocks ({} : StockUpsert) "t1"
      = .ok (1, ⟨[⟨1, none, none, none, none, none, none, none, "t1"⟩], 2⟩) ∧
    upsert_stock ⟨[⟨1, none, none, none, none, none, none, none, "t1"⟩], 2⟩
        ({} : StockUpsert) "t2"
      = .ok (2, ⟨[⟨1, none, none, none, none, none, none, none, "t1"⟩,
          ⟨2, none, none, none, none, none, none, none, "t2"⟩], 3⟩) ∧
    (1 : Nat) ≠ 2 := by
  refine ⟨by decide, by decide, by decide⟩

/-! ### Witnesses for the upsert claims -/

theorem conflict_update_witness :
    StoreInv c8Table ∧
    ∃ t1, upsert_stock c8Table c8Cand "t1" = .ok (c8Row1.stock_id, t1) := by
  have h := conflict_update_targets_isin_match c8Table c8Cand "t1" c8Row1
    c8Row2 "IN1" "BBB" (by decide) (by decide) (by decide) (by decide)
    (by decide) (by decide) (by decide) (by decide)
  obtain ⟨t1, he, -⟩ := h
  exact ⟨by decide, t1, he⟩

theorem upsert_idempotent_witness :
    StoreInv emptyStocks ∧
    (_norm c8Cand.isin ≠ none ∨ _norm c8Cand.symbol_nse ≠ none ∨
      _norm c8Cand.symbol_bse ≠ none) ∧
    ∃ id t1 t2, upsert_stock emptyStocks c8Cand "t1" = .ok (id, t1) ∧
      upsert_stock t1 c8Cand "t2" = .ok (id, t2) ∧
      t2.rows.length = t1.rows.length := by
  have h := upsert_idempotent_with_key emptyStocks c8Cand "t1" "t2"
    (by decide) (by decide)
  exact ⟨by decide, by decide, h⟩

theorem update_merge_witness :
    StoreInv c8Table ∧
    ∃ r0 ∈ c8Table.rows, r0.stock_id = 1 ∧
      upsert_stock c8Table c8Cand "t1"
        = .ok (1, updateResult c8Table c8Cand "t1" 1) := by
  have h := update_merge_semantics c8Table c8Cand "t1" 1 (by decide)
    (by decide)
  obtain ⟨r0, hm, hi, he, -⟩ := h
  exact ⟨by decide, r0, hm, hi, he⟩

/-! ### The ingest_run_sources table (per-source provenance) -/

/-- One row of `ingest_run_sources` (`SCHEMA_SQL`, database.py lines
102-113); primary key (run_id, source_code). -/
structure IngestSourceRow where
  run_id : Nat
  source_code : String
  url : Option String
  fetched_utc : Option String
  http_status : Option Int
  content_sha256 : Option String
  row_count : Option Int
  error : Option String
deriving DecidableEq

/-- The optional keyword arguments of `record_ingest_source`. -/
structure SourceFields where
  url : Option String := none
  fetched_utc : Option String := none
  http_status : Option Int := none
  content_sha256 : Option String := none
  row_count : Option Int := none
  error : Option String := none
deriving DecidableEq

/-- Python `str.lower()` modelled characterwise. -/
def pyLower (s : String) : String := ⟨s.data.map Char.toLower⟩

/-- `str(source_code).strip().lower()` (database.py line 390). -/
def normSourceCode (c : String) : String := pyLower (pyStrip c)

/-- `record_ingest_source` (database.py lines 366-391): INSERT with
`ON CONFLICT(run_id, source_code) DO UPDATE SET` every non-key column to
the excluded (new) value — an upsert keyed on the normalised source
code. -/
def record_ingest_source (tbl : List IngestSourceRow) (run_id : Nat)
    (source_code : String) (a : SourceFields) : List IngestSourceRow :=
  let code := normSourceCode source_code
  let newRow : IngestSourceRow :=
    ⟨run_id, code, a.url, a.fetched_utc, a.http_status, a.content_sha256,
      a.row_count, a.error⟩
  if tbl.any (fun r => r.run_id == run_id && r.source_code == code)
  then tbl.map (fun r =>
    if r.run_id == run_id && r.source_code == code then newRow else r)
  else tbl ++ [newRow]

theorem map_eq_self_of_fix {α : Type} {f : α → α} {l : List α}
    (h : ∀ x ∈ l, f x = x) : l.map f = l := by
  induction l with
  | nil => rfl
  | cons x xs ih =>
    rw [List.map_cons, h x (List.mem_cons_self x xs),
      ih (fun y hy => h y (List.mem_cons_of_mem x hy))]

/-- The update branch of `record_ingest_source` spelled out. -/
theorem record_update_branch {tbl : List IngestSourceRow} {run_id : Nat}
    {code : String} {a : SourceFields}
    (hany : tbl.any (fun r => r.run_id == run_id &&
      r.source_code == normSourceCode code) = true) :
    record_ingest_source tbl run_id code a
      = tbl.map (fun r =>
          if r.run_id == run_id && r.source_code == normSourceCode code
          then ⟨run_id, normSourceCode code, a.url, a.fetched_utc,
            a.http_status, a.content_sha256, a.row_count, a.error⟩
          else r) := by
  unfold record_ingest_source
  rw [if_pos hany]

/-- After any `record_ingest_source` call a row with the (run, normalised
source) key is present. -/
theorem record_key_mem (tbl : List IngestSourceRow) (run_id : Nat)
    (code : String) (a : SourceFields) :
    ∃ r ∈ record_ingest_source tbl run_id code a,
      r.run_id = run_id ∧ r.source_code = normSourceCode code := by
  unfold record_ingest_source
  by_cases hany : tbl.any (fun r =>
    r.run_id == run_id && r.source_code == normSourceCode code)
  · rw [if_pos hany]
    obtain ⟨q, hq, hqp⟩ := List.any_eq_true.mp hany
    refine ⟨_, List.mem_map_of_mem _ hq, ?_⟩
    rw [if_pos hqp]
    exact ⟨rfl, rfl⟩
  · rw [if_neg hany]
    exact ⟨_, List.mem_append_right _ (List.mem_singleton_self _),
      rfl, rfl⟩

/-! ### Claim theorems: C6 and C10 (provenance upserts) -/

/-- C6: the first `record_ingest_source` call for an unseen
(run, source) pair appends exactly one row, and a repeated call for the
same pair rewrites that row in place — the row count of the table does
not change. -/
theorem record_source_insert_then_update (tbl : List IngestSourceRow)
    (run_id : Nat) (code : String) (a1 a2 : SourceFields)
    (h : ∀ r ∈ tbl, ¬(r.run_id = run_id ∧
      r.source_code = normSourceCode code)) :
    record_ingest_source tbl run_id code a1
      = tbl ++ [⟨run_id, normSourceCode code, a1.url, a1.fetched_utc,
          a1.http_status, a1.content_sha256, a1.row_count, a1.error⟩] ∧
    (record_ingest_source tbl run_id code a1).length = tbl.length + 1 ∧
    record_ingest_source (record_ingest_source tbl run_id code a1)
        run_id code a2
      = tbl ++ [⟨run_id, normSourceCode code, a2.url, a2.fetched_utc,
          a2.http_status, a2.content_sha256, a2.row_count, a2.error⟩] ∧
    (record_ingest_source (record_ingest_source tbl run_id code a1)
        run_id code a2).length
      = (record_ingest_source tbl run_id code a1).length := by
  have hmiss : ∀ r ∈ tbl, ¬((r.run_id == run_id &&
      r.source_code == normSourceCode code) = true) := by
    intro r hr hp
    simp only [Bool.and_eq_true, beq_iff_eq] at hp
    exact h r hr hp
  have hany1 : tbl.any (fun r => r.run_id == run_id &&
      r.source_code == normSourceCode code) = false :=
    List.any_eq_false.mpr hmiss
  have heq1 : record_ingest_source tbl run_id code a1
      = tbl ++ [⟨run_id, normSourceCode code, a1.url, a1.fetched_utc,
          a1.http_status, a1.content_sha256, a1.row_count, a1.error⟩] := by
    unfold record_ingest_source
    rw [if_neg (by rw [hany1]; exact Bool.false_ne_true)]
  refine ⟨heq1, by rw [heq1]; simp, ?_, ?_⟩
  · rw [heq1]
    unfold record_ingest_source
    rw [if_pos (by
      rw [List.any_append]
      apply Bool.or_eq_true_iff.mpr
      right
      simp [List.any_cons])]
    rw [List.map_append, map_eq_self_of_fix (by
      intro x hx
      rw [if_neg (hmiss x hx)])]
    rw [show ([⟨run_id, normSourceCode code, a1.url, a1.fetched_utc,
        a1.http_status, a1.content_sha256, a1.row_count, a1.error⟩]
          : List IngestSourceRow).map _
        = [⟨run_id, normSourceCode code, a2.url, a2.fetched_utc,
            a2.http_status, a2.content_sha256, a2.row_count, a2.error⟩]
      from by simp]
  · rw [heq1]
    unfold record_ingest_source
    rw [if_pos (by
      rw [List.any_append]
      apply Bool.or_eq_true_iff.mpr
      right
      simp [List.any_cons])]
    rw [List.length_map]

/-- C10: `record_ingest_source` keys the provenance row on the source
code trimmed and lower-cased, so two calls in the same run whose codes
differ only in case or surrounding whitespace hit the same row: the
second call leaves the row count unchanged and overwrites that row with
its own field values. -/
theorem record_source_code_normalised (tbl : List IngestSourceRow)
    (run_id : Nat) (c1 c2 : String) (a1 a2 : SourceFields)
    (h : normSourceCode c1 = normSourceCode c2) :
    (record_ingest_source (record_ingest_source tbl run_id c1 a1)
        run_id c2 a2).length
      = (record_ingest_source tbl run_id c1 a1).length ∧
    ∃ r ∈ record_ingest_source (record_ingest_source tbl run_id c1 a1)
        run_id c2 a2,
      r.run_id = run_id ∧ r.source_code = normSourceCode c1 ∧
      r.url = a2.url ∧ r.fetched_utc = a2.fetched_utc ∧
      r.http_status = a2.http_status ∧
      r.content_sha256 = a2.content_sha256 ∧
      r.row_count = a2.row_count ∧ r.error = a2.error := by
  obtain ⟨q, hq, hq1, hq2⟩ := record_key_mem tbl run_id c1 a1
  have hany : (record_ingest_source tbl run_id c1 a1).any (fun r =>
      r.run_id == run_id && r.source_code == normSourceCode c2) = true := by
    rw [List.any_eq_true]
    exact ⟨q, hq, by simp [hq1, hq2, ← h]⟩
  have hupd := record_update_branch (a := a2) hany
  constructor
  · rw [hupd, List.length_map]
  · rw [hupd]
    refine ⟨_, List.mem_map_of_mem _ hq, ?_⟩
    rw [if_pos (by simp [hq1, hq2, ← h])]
    exact ⟨rfl, h.symm, rfl, rfl, rfl, rfl, rfl, rfl⟩

/-! ### Witnesses for the provenance claims -/

theorem record_source_insert_then_update_witness :
    (∀ r ∈ ([] : List IngestSourceRow), ¬(r.run_id = 1 ∧
      r.source_code = normSourceCode "nse_equity_l")) ∧
    (record_ingest_source ([] : List IngestSourceRow) 1 "nse_equity_l"
      {}).length = 0 + 1 := by
  have h := record_source_insert_then_update [] 1 "nse_equity_l" {}
    { row_count := some 10 } (by intro r hr; exact absurd hr (by simp))
  exact ⟨by intro r hr; exact absurd hr (by simp), h.2.1⟩

theorem record_source_code_normalised_witness :
    normSourceCode " NSE_Equity_L " = normSourceCode "nse_equity_l" ∧
    (record_ingest_source (record_ingest_source
        ([] : List IngestSourceRow) 1 " NSE_Equity_L " {}) 1 "nse_equity_l"
        { row_count := some 7 }).length
      = (record_ingest_source ([] : List IngestSourceRow) 1
          " NSE_Equity_L " {}).length := by
  have h := record_source_code_normalised [] 1 " NSE_Equity_L "
    "nse_equity_l" {} { row_count := some 7 } (by decide)
  exact ⟨by decide, h.1⟩

/-! ### Universes, membership and snapshots -/

/-- One row of `universes` (`SCHEMA_SQL`, database.py lines 76-80). -/
structure UniverseRow where
  universe_id : Nat
  universe_code : String
  description : Option String
deriving DecidableEq

/-- One row of `universe_membership` (`SCHEMA_SQL`, lines 82-90);
`included` is the INTEGER flag of the schema. -/
structure MembershipRow where
  universe_id : Nat
  stock_id : Nat
  included : Nat
  updated_utc : String
deriving DecidableEq

/-- One row of `ticker_snapshots` (`SCHEMA_SQL`, lines 115-123). -/
structure SnapshotRow where
  universe_id : Nat
  created_utc : String
  snapshot_path : String
  row_count : Nat
  content_sha256 : String
deriving DecidableEq

/-- The tables of the reference-data store that the snapshot
exporter/importer touch. -/
structure Db where
  stocks : StocksTable
  universes : List UniverseRow
  nextUniverseId : Nat
  membership : List MembershipRow
  snapshots : List SnapshotRow
deriving DecidableEq

/-- A freshly initialised database. -/
def emptyDb : Db := ⟨emptyStocks, [], 1, [], []⟩

/-- `ensure_universe` (database.py lines 313-324): get-or-create keyed on
the stripped, lower-cased code. -/
def ensure_universe (db : Db) (universe_code : String)
    (description : Option String) : Nat × Db :=
  let code := pyLower (pyStrip universe_code)
  match db.universes.find? (fun u => u.universe_code == code) with
  | some u => (u.universe_id, db)
  | none => (db.nextUniverseId,
      { db with
        universes := db.universes ++
          [⟨db.nextUniverseId, code, description⟩],
        nextUniverseId := db.nextUniverseId + 1 })

/-- `upsert_universe_membership` (database.py lines 327-337): INSERT with
ON CONFLICT(universe_id, stock_id) DO UPDATE of the flag and
timestamp. -/
def upsert_universe_membership (db : Db) (universe_id stock_id : Nat)
    (included : Bool) (now : String) : Db :=
  let inc : Nat := if included then 1 else 0
  let newRow : MembershipRow := ⟨universe_id, stock_id, inc, now⟩
  if db.membership.any (fun m =>
    m.universe_id == universe_id && m.stock_id == stock_id)
  then { db with membership := db.membership.map (fun m =>
    if m.universe_id == universe_id && m.stock_id == stock_id
    then newRow else m) }
  else { db with membership := db.membership ++ [newRow] }

/-! ### The snapshot CSV writer (export_universe_snapshot_csv) -/

/-- Python `",".join(...)`. -/
def joinComma : List String → String
  | [] => ""
  | [x] => x
  | x :: xs => x ++ "," ++ joinComma xs

/-- Python `"".join(...)`. -/
def joinAll : List String → String
  | [] => ""
  | x :: xs => x ++ joinAll xs

/-- Python `s.replace('"', '""')` characterwise. -/
def doubleQuotes : List Char → List Char
  | [] => []
  | c :: cs =>
    if c = '"' then '"' :: '"' :: doubleQuotes cs else c :: doubleQuotes cs

/-- The escaping step of the exporter (database.py lines 440-445): a field
containing a comma or quote is wrapped in quotes with inner quotes
doubled; anything else is written as-is. -/
def csv_escape (s : String) : String :=
  if s.data.any (fun c => c = ',' || c = '"')
  then ⟨'"' :: (doubleQuotes s.data ++ ['"'])⟩
  else s

/-- The `vals` list of the exporter (database.py lines 430-439): NULLs
become empty strings; newlines and carriage returns in the company name
become spaces. -/
def exportVals (r : StockRow) : List String :=
  [r.symbol_nse.getD "", r.symbol_bse.getD "",
   replaceChar (replaceChar (r.company_name.getD "") '\n' ' ') '\r' ' ',
   r.isin.getD "", r.nse_series.getD "", r.bse_scrip_code.getD "",
   r.status.getD ""]

/-- The joined escaped fields of one data line (database.py line 446). -/
def csvLineBody (r : StockRow) : String :=
  joinComma ((exportVals r).map csv_escape)

/-- One CSV data line of the snapshot (database.py line 446). -/
def csvLine (r : StockRow) : String := csvLineBody r ++ "\n"

/-- The fixed 7-column header (database.py line 428). -/
def snapshotHeader : String :=
  "symbol_nse,symbol_bse,company_name,isin,nse_series,bse_scrip_code,status\n"

/-- The whole file content (database.py lines 429-448). -/
def snapshotContent (rows : List StockRow) : String :=
  joinAll (snapshotHeader :: rows.map csvLine)

/-- Byte-order comparison of SQLite's BINARY collation on TEXT. -/
def charListLe : List Char → List Char → Bool
  | [], _ => true
  | _ :: _, [] => false
  | a :: as, b :: bs => if a = b then charListLe as bs else decide (a < b)

/-- The ORDER BY key of the exporter:
`COALESCE(symbol_nse, symbol_bse, isin, company_name)`, NULLs first. -/
def exportKeyLe (a b : StockRow) : Bool :=
  match coalesce a.symbol_nse (coalesce a.symbol_bse
      (coalesce a.isin a.company_name)),
    coalesce b.symbol_nse (coalesce b.symbol_bse
      (coalesce b.isin b.company_name)) with
  | none, _ => true
  | some _, none => false
  | some x, some y => charListLe x.data y.data

def insertSorted (le : StockRow → StockRow → Bool) (x : StockRow) :
    List StockRow → List StockRow
  | [] => [x]
  | y :: ys => if le x y then x :: y :: ys else y :: insertSorted le x ys

/-- ORDER BY modelled as an insertion sort (only the multiset of rows
matters to any claim about the snapshot). -/
def sortRows (le : StockRow → StockRow → Bool) :
    List StockRow → List StockRow
  | [] => []
  | x :: xs => insertSorted le x (sortRows le xs)

/-- The membership join of the exporter (database.py lines 415-424):
included members of the universe joined to their stock rows (the join on
the primary key is a `find?`). -/
def universeIncludedRows (db : Db) (universe_id : Nat) : List StockRow :=
  (db.membership.filter (fun m =>
    m.universe_id == universe_id && m.included == 1)).filterMap
    (fun m => db.stocks.rows.find? (fun r => r.stock_id == m.stock_id))

/-- Stand-in for `hashlib.sha256(...).hexdigest()` over text (stdlib
collaborator outside the repository; no claim depends on the digest's
value, only on the snapshot row it is stored in). -/
def sha256_text (s : String) : String := s

/-- `export_universe_snapshot_csv` (database.py lines 398-458): returns
the row count, the written file as (path, exact content) when one is
written, and the new database state (one appended ticker_snapshots
row). -/
def export_universe_snapshot_csv (db : Db) (universe_code : String)
    (out_path : String) (now : String) :
    Nat × Option (String × String) × Db :=
  let code := pyLower (pyStrip universe_code)
  match db.universes.find? (fun u => u.universe_code == code) with
  | none => (0, none, db)
  | some u =>
    let rows := sortRows exportKeyLe (universeIncludedRows db u.universe_id)
    let content := snapshotContent rows
    (rows.length, some (out_path, content),
      { db with snapshots := db.snapshots ++
        [⟨u.universe_id, now, out_path, rows.length, sha256_text content⟩] })

/-! ### Claim theorem: C7 (unknown universe code on export) -/

/-- C7: exporting a universe code that matches no universe row returns a
row count of 0, writes no file, and leaves the database — in particular
the ticker_snapshots table — unchanged; the function is total, so the
case never raises. -/
theorem export_unknown_universe_noop (db : Db) (universe_code out_path
    now : String)
    (h : ∀ u ∈ db.universes,
      u.universe_code ≠ pyLower (pyStrip universe_code)) :
    export_universe_snapshot_csv db universe_code out_path now
      = (0, none, db) := by
  simp only [export_universe_snapshot_csv]
  rw [show db.universes.find? (fun u =>
      u.universe_code == pyLower (pyStrip universe_code)) = none from
    List.find?_eq_none.mpr (fun u hu => by simp [h u hu])]

theorem export_unknown_universe_witness :
    (∀ u ∈ (⟨emptyStocks, [⟨1, "nse_eq", none⟩], 2, [], []⟩ : Db).universes,
      u.universe_code ≠ pyLower (pyStrip "bse_eq")) ∧
    export_universe_snapshot_csv ⟨emptyStocks, [⟨1, "nse_eq", none⟩], 2, [], []⟩
        "bse_eq" "config/ticker_snapshots/bse_eq.csv" "t1"
      = (0, none, ⟨emptyStocks, [⟨1, "nse_eq", none⟩], 2, [], []⟩) := by
  refine ⟨by decide, ?_⟩
  exact export_unknown_universe_noop _ _ _ _ (by decide)

/-! ### The snapshot CSV reader (stdlib csv.DictReader + read_snapshot_csv) -/

/-- Split a character list on a separator character. -/
def splitOnChar (c : Char) : List Char → List (List Char)
  | [] => [[]]
  | a :: as =>
    if a = c then [] :: splitOnChar c as
    else
      match splitOnChar c as with
      | [] => [[a]]
      | g :: gs => (a :: g) :: gs

/-- One CSV record parsed fieldwise (excel dialect on a single line: a
field starting with a quote is quoted, a doubled quote inside a quoted
field is a literal quote).  Models the stdlib csv reader for content
without newlines inside quoted fields — all the content this repository
writes. -/
def parseCsvLineAux : List Char → Bool → List Char → List String
  | [], _, cur => [⟨cur.reverse⟩]
  | c :: cs, true, cur =>
    if c = '"' then
      match cs with
      | '"' :: cs2 => parseCsvLineAux cs2 true ('"' :: cur)
      | [] => [⟨cur.reverse⟩]
      | d :: cs2 =>
        if d = ','
        then (⟨cur.reverse⟩ : String) :: parseCsvLineAux cs2 false []
        else parseCsvLineAux cs2 false (d :: cur)
    else parseCsvLineAux cs true (c :: cur)
  | c :: cs, false, cur =>
    if c = ',' then (⟨cur.reverse⟩ : String) :: parseCsvLineAux cs false []
    else if c = '"' ∧ cur = [] then parseCsvLineAux cs true []
    else parseCsvLineAux cs false (c :: cur)

def parseCsvLine (s : String) : List String := parseCsvLineAux s.data false []

/-- The records of a CSV text: lines split on newline, blank records
skipped (csv.DictReader skips empty rows), each parsed fieldwise. -/
def csvRecords (content : String) : List (List String) :=
  ((splitOnChar '\n' content.data).filter (fun l => l ≠ [])).map
    (fun l => parseCsvLine ⟨l⟩)

/-- The key/value cleanup loop of `read_snapshot_csv` (build_db.py lines
72-81): keys stripped, blank keys dropped, values stripped. -/
def cleanRow (pairs : List (String × String)) : List (String × String) :=
  pairs.filterMap (fun kv =>
    let kk := pyStrip kv.1
    if kk = "" then none else some (kk, pyStrip kv.2))

/-- `read_snapshot_csv` (build_db.py lines 67-82) applied to the file
content: DictReader pairs the header names with each record's fields. -/
def read_snapshot_csv (content : String) : List (List (String × String)) :=
  match csvRecords content with
  | [] => []
  | header :: recs => recs.map (fun fields => cleanRow (header.zip fields))

/-- `row.get(k) or ""` on a parsed row. -/
def getCol (row : List (String × String)) (k : String) : String :=
  ((row.find? (fun p => p.1 == k)).map (fun p => p.2)).getD ""

/-- `(... or "").strip() or None` of the importer. -/
def strToOpt (s : String) : Option String :=
  let t := pyStrip s
  if t = "" then none else some t

/-- The candidate the NSE branch of `ingest_from_snapshots` builds from a
parsed snapshot row (build_db.py lines 244-253): only symbol_nse,
company_name, isin, nse_series and status are read — symbol_bse and
bse_scrip_code are not. -/
def nseSnapshotCandidate (row : List (String × String)) : StockUpsert :=
  { symbol_nse := strToOpt (getCol row "symbol_nse")
    company_name := strToOpt (getCol row "company_name")
    isin := strToOpt (getCol row "isin")
    nse_series := strToOpt (getCol row "nse_series")
    status := strToOpt (getCol row "status") }

/-- The candidate of the BSE branch (build_db.py lines 263-271):
symbol_nse and nse_series are not read. -/
def bseSnapshotCandidate (row : List (String × String)) : StockUpsert :=
  { symbol_bse := strToOpt (getCol row "symbol_bse")
    company_name := strToOpt (getCol row "company_name")
    isin := strToOpt (getCol row "isin")
    bse_scrip_code := strToOpt (getCol row "bse_scrip_code")
    status := strToOpt (getCol row "status") }

/-- The per-row loop body shared by both snapshot branches (build_db.py
lines 242-257 and 261-276): every parsed row is passed to the upsert
engine and membership tracker — the loop has no identifying-key check.  A
database error aborts the run (the Python exception propagates). -/
def ingestSnapshotRows (db : Db) (universe_id : Nat)
    (cand : List (String × String) → StockUpsert) (now : String) :
    List (List (String × String)) → Db
  | [] => db
  | row :: rest =>
    match upsert_stock db.stocks (cand row) now with
    | .error _ => db
    | .ok (sid, st) =>
      ingestSnapshotRows
        (upsert_universe_membership { db with stocks := st } universe_id sid
          true now) universe_id cand now rest

/-- `ingest_from_snapshots` (build_db.py lines 232-279): NSE snapshot
first, then BSE; a missing file skips its branch.  `now` stands for the
timestamps taken during the run. -/
def ingest_from_snapshots (db : Db) (nse_file bse_file : Option String)
    (now : String) : Db :=
  let db1 :=
    match nse_file with
    | none => db
    | some content =>
      let p := ensure_universe db "nse_eq"
        (some "NSE listed equities (snapshot)")
      ingestSnapshotRows p.2 p.1 nseSnapshotCandidate now
        (read_snapshot_csv content)
  match bse_file with
  | none => db1
  | some content =>
    let p := ensure_universe db1 "bse_eq"
      (some "BSE scrip master (snapshot)")
    ingestSnapshotRows p.2 p.1 bseSnapshotCandidate now
      (read_snapshot_csv content)

/-! ### Claim C5: the importer does not skip keyless rows (code bug) -/

/-- A snapshot file whose single data row has no identifying key (blank
symbol_nse, symbol_bse and isin) but a company name. -/
def ghostSnapshot : String :=
  "symbol_nse,symbol_bse,company_name,isin,nse_series,bse_scrip_code,status\n,,Ghost Co,,,,\n"

/-- C5 (what the code actually does at the failing input): the keyless
snapshot row is passed to the upsert engine — `ingest_from_snapshots` has
no usable-key check, unlike the live-feed ingesters — and creates a bare
stock row holding only the company name. -/
theorem keyless_snapshot_row_creates_stock :
    ((ingest_from_snapshots emptyDb (some ghostSnapshot) none
        "t1").stocks.rows.map
      (fun r => (r.symbol_nse, r.symbol_bse, r.isin, r.company_name)))
      = [(none, none, none, some "Ghost Co")] := by decide

/-! ### Lemmas: the written snapshot parses back to the exported fields -/

theorem mk_data (s : String) : (⟨s.data⟩ : String) = s := rfl

theorem parseAux_nil (b : Bool) (cur : List Char) :
    parseCsvLineAux [] b cur = [⟨cur.reverse⟩] := by
  cases b <;> rfl

theorem parseAux_false_comma (cs cur : List Char) :
    parseCsvLineAux (',' :: cs) false cur
      = (⟨cur.reverse⟩ : String) :: parseCsvLineAux cs false [] := rfl

theorem parseAux_false_other {c : Char} (hc1 : c ≠ ',') (hc2 : c ≠ '"')
    (cs cur : List Char) :
    parseCsvLineAux (c :: cs) false cur
      = parseCsvLineAux cs false (c :: cur) := by
  rw [parseCsvLineAux.eq_def]
  simp only []
  rw [if_neg hc1, if_neg (by intro hand; exact hc2 hand.1)]

theorem parseAux_false_quote_start (cs : List Char) :
    parseCsvLineAux ('"' :: cs) false [] = parseCsvLineAux cs true [] := rfl

theorem parseAux_true_quote_quote (cs2 cur : List Char) :
    parseCsvLineAux ('"' :: '"' :: cs2) true cur
      = parseCsvLineAux cs2 true ('"' :: cur) := rfl

theorem parseAux_true_close_comma (rest cur : List Char) :
    parseCsvLineAux ('"' :: ',' :: rest) true cur
      = (⟨cur.reverse⟩ : String) :: parseCsvLineAux rest false [] := rfl

theorem parseAux_true_close_nil (cur : List Char) :
    parseCsvLineAux ['"'] true cur = [⟨cur.reverse⟩] := rfl

theorem parseAux_true_other {c : Char} (hc : c ≠ '"') (cs cur : List Char) :
    parseCsvLineAux (c :: cs) true cur = parseCsvLineAux cs true (c :: cur) := by
  rw [parseCsvLineAux.eq_def]
  simp only []
  rw [if_neg hc]

theorem parse_doubleQuotes (m : List Char) (rest cur : List Char) :
    parseCsvLineAux (doubleQuotes m ++ rest) true cur
      = parseCsvLineAux rest true (m.reverse ++ cur) := by
  induction m generalizing cur with
  | nil => simp [doubleQuotes]
  | cons c cs ih =>
    by_cases hc : c = '"'
    · subst hc
      rw [show doubleQuotes ('"' :: cs) = '"' :: '"' :: doubleQuotes cs from
        by simp [doubleQuotes]]
      rw [List.cons_append, List.cons_append, parseAux_true_quote_quote, ih]
      simp
    · rw [show doubleQuotes (c :: cs) = c :: doubleQuotes cs from
        by simp [doubleQuotes, hc]]
      rw [List.cons_append, parseAux_true_other hc, ih]
      simp

theorem parse_clean_chars {l : List Char}
    (hl : ∀ c ∈ l, c ≠ ',' ∧ c ≠ '"') (rest cur : List Char) :
    parseCsvLineAux (l ++ rest) false cur
      = parseCsvLineAux rest false (l.reverse ++ cur) := by
  induction l generalizing cur with
  | nil => simp
  | cons c cs ih =>
    obtain ⟨hc1, hc2⟩ := hl c (by simp)
    rw [List.cons_append, parseAux_false_other hc1 hc2,
      ih (fun d hd => hl d (by simp [hd]))]
    simp

theorem parse_field_comma (v : String) (rest : List Char) :
    parseCsvLineAux ((csv_escape v).data ++ ',' :: rest) false []
      = v :: parseCsvLineAux rest false [] := by
  unfold csv_escape
  by_cases h : v.data.any (fun c => c = ',' || c = '"')
  · rw [if_pos h]
    show parseCsvLineAux
      (('"' :: (doubleQuotes v.data ++ ['"'])) ++ ',' :: rest) false [] = _
    rw [List.cons_append, parseAux_false_quote_start, List.append_assoc,
      parse_doubleQuotes]
    show parseCsvLineAux ('"' :: ',' :: rest) true (v.data.reverse ++ []) = _
    rw [parseAux_true_close_comma]
    simp [mk_data]
  · rw [if_neg h]
    have hcl : ∀ c ∈ v.data, c ≠ ',' ∧ c ≠ '"' := by
      intro c hc
      constructor <;> intro he <;>
        exact h (List.any_eq_true.mpr ⟨c, hc, by simp [he]⟩)
    rw [parse_clean_chars hcl, parseAux_false_comma]
    simp [mk_data]

theorem parse_field_end (v : String) :
    parseCsvLineAux (csv_escape v).data false [] = [v] := by
  unfold csv_escape
  by_cases h : v.data.any (fun c => c = ',' || c = '"')
  · rw [if_pos h]
    show parseCsvLineAux ('"' :: (doubleQuotes v.data ++ ['"'])) false [] = _
    rw [parseAux_false_quote_start, parse_doubleQuotes]
    show parseCsvLineAux ['"'] true (v.data.reverse ++ []) = _
    rw [parseAux_true_close_nil]
    simp [mk_data]
  · rw [if_neg h]
    have hcl : ∀ c ∈ v.data, c ≠ ',' ∧ c ≠ '"' := by
      intro c hc
      constructor <;> intro he <;>
        exact h (List.any_eq_true.mpr ⟨c, hc, by simp [he]⟩)
    rw [show (v.data : List Char) = v.data ++ [] from by simp,
      parse_clean_chars hcl, parseAux_nil]
    simp [mk_data]

theorem parse_join_vals (vs : List String) (hne : vs ≠ []) :
    parseCsvLineAux (joinComma (vs.map csv_escape)).data false [] = vs := by
  induction vs with
  | nil => exact absurd rfl hne
  | cons v rest ih =>
    cases rest with
    | nil =>
      show parseCsvLineAux (joinComma [csv_escape v]).data false [] = [v]
      exact parse_field_end v
    | cons w rest2 =>
      rw [show joinComma ((v :: w :: rest2).map csv_escape)
          = csv_escape v ++ "," ++ joinComma ((w :: rest2).map csv_escape)
        from rfl]
      rw [String.data_append, String.data_append]
      rw [List.append_assoc]
      rw [show ("," : String).data ++ (joinComma ((w :: rest2).map
          csv_escape)).data
        = ',' :: (joinComma ((w :: rest2).map csv_escape)).data from rfl]
      rw [parse_field_comma, ih (by simp)]

/-! ### Lemmas: splitting the snapshot into its lines -/

theorem splitOnChar_sep (c : Char) (rest : List Char) :
    splitOnChar c (c :: rest) = [] :: splitOnChar c rest := by
  conv_lhs => unfold splitOnChar
  rw [if_pos rfl]

theorem splitOnChar_first {c : Char} {l1 : List Char} (h : c ∉ l1)
    (rest : List Char) :
    splitOnChar c (l1 ++ c :: rest) = l1 :: splitOnChar c rest := by
  induction l1 with
  | nil => exact splitOnChar_sep c rest
  | cons a as ih =>
    have ha : a ≠ c := fun he => h (he ▸ List.mem_cons_self a as)
    rw [List.cons_append]
    conv_lhs => unfold splitOnChar
    rw [if_neg ha, ih (fun hm => h (List.mem_cons_of_mem a hm))]

theorem replaceChar_no_target {s : String} {a b : Char} (hab : b ≠ a) :
    a ∉ (replaceChar s a b).data := by
  intro hmem
  obtain ⟨c, _, hc⟩ := List.mem_map.mp hmem
  by_cases h : c = a
  · rw [if_pos h] at hc
    exact hab hc
  · rw [if_neg h] at hc
    exact h hc

theorem replaceChar_keeps_no {s : String} {a b x : Char} (hx : x ∉ s.data)
    (hbx : b ≠ x) : x ∉ (replaceChar s a b).data := by
  intro hmem
  obtain ⟨c, hcm, hc⟩ := List.mem_map.mp hmem
  by_cases h : c = a
  · rw [if_pos h] at hc
    exact hbx hc
  · rw [if_neg h] at hc
    exact hx (hc ▸ hcm)

/-- Fields free of line breaks (the side condition of the amended
round-trip claim for symbols, ISIN, series, scrip code and status; the
exporter itself sanitises the company name). -/
def CleanStr (s : String) : Prop := '\n' ∉ s.data ∧ '\r' ∉ s.data

instance (s : String) : Decidable (CleanStr s) :=
  inferInstanceAs (Decidable (_ ∧ _))

def CleanOpt : Option String → Prop
  | none => True
  | some s => CleanStr s

instance (v : Option String) : Decidable (CleanOpt v) :=
  match v with
  | none => .isTrue trivial
  | some s => inferInstanceAs (Decidable (CleanStr s))

def CleanFields (r : StockRow) : Prop :=
  CleanOpt r.symbol_nse ∧ CleanOpt r.symbol_bse ∧ CleanOpt r.isin ∧
  CleanOpt r.nse_series ∧ CleanOpt r.bse_scrip_code ∧ CleanOpt r.status

instance (r : StockRow) : Decidable (CleanFields r) := by
  unfold CleanFields; infer_instance

theorem noNl_getD {v : Option String} (h : CleanOpt v) :
    '\n' ∉ (v.getD "").data := by
  cases v with
  | none => simp
  | some s => exact h.1

theorem noNl_exportVals {r : StockRow} (h : CleanFields r) :
    ∀ v ∈ exportVals r, '\n' ∉ v.data := by
  obtain ⟨h1, h2, h3, h4, h5, h6⟩ := h
  intro v hv
  unfold exportVals at hv
  simp only [List.mem_cons, List.not_mem_nil, or_false] at hv
  rcases hv with hv | hv | hv | hv | hv | hv | hv <;> subst hv
  · exact noNl_getD h1
  · exact noNl_getD h2
  · exact replaceChar_keeps_no
      (replaceChar_no_target (by decide)) (by decide)
  · exact noNl_getD h3
  · exact noNl_getD h4
  · exact noNl_getD h5
  · exact noNl_getD h6

theorem noNl_doubleQuotes {l : List Char} (h : '\n' ∉ l) :
    '\n' ∉ doubleQuotes l := by
  induction l with
  | nil => simp [doubleQuotes]
  | cons c cs ih =>
    have hc : ('\n' : Char) ≠ c := fun he => h (he ▸ List.mem_cons_self c cs)
    have hcs := ih (fun hm => h (List.mem_cons_of_mem c hm))
    unfold doubleQuotes
    split
    · intro hm
      rcases List.mem_cons.mp hm with he | hm2
      · exact absurd he (by decide)
      · rcases List.mem_cons.mp hm2 with he | hm3
        · exact absurd he (by decide)
        · exact hcs hm3
    · intro hm
      rcases List.mem_cons.mp hm with he | hm2
      · exact hc he
      · exact hcs hm2

theorem noNl_escape {v : String} (h : '\n' ∉ v.data) :
    '\n' ∉ (csv_escape v).data := by
  unfold csv_escape
  split
  · show '\n' ∉ '"' :: (doubleQuotes v.data ++ ['"'])
    intro hm
    rcases List.mem_cons.mp hm with he | hm2
    · exact absurd he (by decide)
    · rcases List.mem_append.mp hm2 with hm3 | hm3
      · exact noNl_doubleQuotes h hm3
      · simp at hm3
  · exact h

theorem noNl_joinComma {vs : List String} (h : ∀ v ∈ vs, '\n' ∉ v.data) :
    '\n' ∉ (joinComma vs).data := by
  induction vs with
  | nil => simp [joinComma]
  | cons x xs ih =>
    cases xs with
    | nil => exact h x (by simp)
    | cons y ys =>
      show '\n' ∉ (x ++ "," ++ joinComma (y :: ys)).data
      rw [String.data_append, String.data_append]
      intro hm
      rcases List.mem_append.mp hm with hm2 | hm2
      · rcases List.mem_append.mp hm2 with hm3 | hm3
        · exact h x (by simp) hm3
        · simp at hm3
      · exact ih (fun v hv => h v (List.mem_cons_of_mem x hv)) hm2

theorem noNl_lineBody {r : StockRow} (h : CleanFields r) :
    '\n' ∉ (csvLineBody r).data := by
  apply noNl_joinComma
  intro v hv
  obtain ⟨w, hw, hwv⟩ := List.mem_map.mp hv
  rw [← hwv]
  exact noNl_escape (noNl_exportVals h w hw)

theorem lineBody_ne_nil (r : StockRow) : (csvLineBody r).data ≠ [] := by
  show (joinComma ((exportVals r).map csv_escape)).data ≠ []
  unfold exportVals
  rw [show ((([_, _, _, _, _, _, _] : List String)).map csv_escape)
      = [csv_escape (r.symbol_nse.getD ""), csv_escape (r.symbol_bse.getD ""),
         csv_escape (replaceChar (replaceChar (r.company_name.getD "") '\n' ' ') '\r' ' '),
         csv_escape (r.isin.getD ""), csv_escape (r.nse_series.getD ""),
         csv_escape (r.bse_scrip_code.getD ""), csv_escape (r.status.getD "")]
    from rfl]
  rw [show joinComma [csv_escape (r.symbol_nse.getD ""),
      csv_escape (r.symbol_bse.getD ""),
      csv_escape (replaceChar (replaceChar (r.company_name.getD "") '\n' ' ') '\r' ' '),
      csv_escape (r.isin.getD ""), csv_escape (r.nse_series.getD ""),
      csv_escape (r.bse_scrip_code.getD ""), csv_escape (r.status.getD "")]
      = csv_escape (r.symbol_nse.getD "") ++ "," ++ joinComma [csv_escape (r.symbol_bse.getD ""),
        csv_escape (replaceChar (replaceChar (r.company_name.getD "") '\n' ' ') '\r' ' '),
        csv_escape (r.isin.getD ""), csv_escape (r.nse_series.getD ""),
        csv_escape (r.bse_scrip_code.getD ""), csv_escape (r.status.getD "")]
    from rfl]
  rw [String.data_append, String.data_append]
  intro hnil
  have := List.append_eq_nil.mp hnil
  have h2 := List.append_eq_nil.mp this.1
  exact absurd h2.2 (by decide)

/-! ### Lemmas: reading back the written snapshot -/

/-- The header without its newline. -/
def snapshotHeaderBody : String :=
  "symbol_nse,symbol_bse,company_name,isin,nse_series,bse_scrip_code,status"

theorem snapshotHeader_eq : snapshotHeader = snapshotHeaderBody ++ "\n" := by
  decide

/-- The seven column names. -/
def headerNames : List String :=
  ["symbol_nse", "symbol_bse", "company_name", "isin", "nse_series",
   "bse_scrip_code", "status"]

theorem header_names_parse : parseCsvLine snapshotHeaderBody = headerNames := by
  decide

theorem splitOnChar_lines {rows : List StockRow}
    (hclean : ∀ r ∈ rows, CleanFields r) :
    splitOnChar '\n' (joinAll (rows.map csvLine)).data
      = rows.map (fun r => (csvLineBody r).data) ++ [[]] := by
  induction rows with
  | nil => rfl
  | cons r rest ih =>
    show splitOnChar '\n' (csvLine r ++ joinAll (rest.map csvLine)).data = _
    rw [show csvLine r = csvLineBody r ++ "\n" from rfl]
    rw [String.data_append, String.data_append, List.append_assoc]
    rw [show (("\n" : String)).data ++ (joinAll (rest.map csvLine)).data
        = '\n' :: (joinAll (rest.map csvLine)).data from rfl]
    rw [splitOnChar_first (noNl_lineBody (hclean r (by simp)))]
    rw [ih (fun q hq => hclean q (List.mem_cons_of_mem r hq))]
    rfl

theorem csvRecords_snapshot {rows : List StockRow}
    (hclean : ∀ r ∈ rows, CleanFields r) :
    csvRecords (snapshotContent rows)
      = headerNames :: rows.map (fun r => exportVals r) := by
  unfold csvRecords
  rw [show snapshotContent rows
      = snapshotHeader ++ joinAll (rows.map csvLine) from rfl]
  rw [snapshotHeader_eq]
  rw [String.data_append, String.data_append, List.append_assoc]
  rw [show (("\n" : String)).data ++ (joinAll (rows.map csvLine)).data
      = '\n' :: (joinAll (rows.map csvLine)).data from rfl]
  rw [splitOnChar_first (by decide)]
  rw [splitOnChar_lines hclean]
  rw [show ((snapshotHeaderBody.data :: (rows.map (fun r =>
      (csvLineBody r).data) ++ [[]])).filter (fun l => l ≠ []))
      = snapshotHeaderBody.data :: ((rows.map (fun r =>
        (csvLineBody r).data) ++ [[]]).filter (fun l => l ≠ [])) from by
    rw [List.filter_cons_of_pos (by decide)]]
  rw [List.filter_append]
  rw [List.filter_eq_self.mpr (by
    intro l hl
    obtain ⟨q, hq, hql⟩ := List.mem_map.mp hl
    simp only [ne_eq, decide_eq_true_eq]
    rw [← hql]
    exact lineBody_ne_nil q)]
  rw [show (([[]] : List (List Char)).filter (fun l => l ≠ [])) = [] from rfl]
  rw [List.append_nil, List.map_cons, List.map_map]
  rw [show parseCsvLine ⟨snapshotHeaderBody.data⟩ = headerNames from
    header_names_parse]
  congr 1
  apply List.map_congr_left
  intro q _
  show parseCsvLine ⟨(csvLineBody q).data⟩ = exportVals q
  rw [mk_data]
  show parseCsvLineAux (joinComma ((exportVals q).map csv_escape)).data
    false [] = exportVals q
  exact parse_join_vals _ (by simp [exportVals])

theorem read_snapshot_csv_snapshot {rows : List StockRow}
    (hclean : ∀ r ∈ rows, CleanFields r) :
    read_snapshot_csv (snapshotContent rows)
      = rows.map (fun r => cleanRow (headerNames.zip (exportVals r))) := by
  unfold read_snapshot_csv
  rw [csvRecords_snapshot hclean]
  show (rows.map (fun r => exportVals r)).map
    (fun fields => cleanRow (headerNames.zip fields)) = _
  rw [List.map_map]
  rfl

theorem cleanRow_eval (v1 v2 v3 v4 v5 v6 v7 : String) :
    cleanRow (headerNames.zip [v1, v2, v3, v4, v5, v6, v7])
      = [("symbol_nse", pyStrip v1), ("symbol_bse", pyStrip v2),
         ("company_name", pyStrip v3), ("isin", pyStrip v4),
         ("nse_series", pyStrip v5), ("bse_scrip_code", pyStrip v6),
         ("status", pyStrip v7)] := by
  have e1 : pyStrip "symbol_nse" = "symbol_nse" := by decide
  have e2 : pyStrip "symbol_bse" = "symbol_bse" := by decide
  have e3 : pyStrip "company_name" = "company_name" := by decide
  have e4 : pyStrip "isin" = "isin" := by decide
  have e5 : pyStrip "nse_series" = "nse_series" := by decide
  have e6 : pyStrip "bse_scrip_code" = "bse_scrip_code" := by decide
  have e7 : pyStrip "status" = "status" := by decide
  simp [cleanRow, headerNames, List.filterMap, e1, e2, e3, e4, e5, e6, e7]

theorem getCol_cons_hit {k : String} {v : String}
    (row : List (String × String)) : getCol ((k, v) :: row) k = v := by
  unfold getCol
  rw [List.find?_cons_of_pos _ (by simp)]
  rfl

theorem getCol_cons_miss {k k' : String} {v : String} (h : (k' == k) = false)
    (row : List (String × String)) : getCol ((k', v) :: row) k
      = getCol row k := by
  unfold getCol
  rw [List.find?_cons_of_neg _ (by simp [h])]

/-- Python `.strip() or None` undoes the export's `or ""` on normalised
values. -/
theorem strToOpt_getD {o : Option String} (h : NormedOpt o) :
    strToOpt (pyStrip (o.getD "")) = o := by
  cases o with
  | none => decide
  | some v =>
    obtain ⟨hne, hfix⟩ := h
    show strToOpt (pyStrip v) = some v
    rw [hfix]
    show (let t := pyStrip v; if t = "" then none else some t) = some v
    rw [hfix]
    exact if_neg hne

/-! ### Lemmas: what the importer inserts for each exported row -/

/-- The candidate the NSE importer builds for one exported row. -/
def nseImportCandOf (r : StockRow) : StockUpsert :=
  nseSnapshotCandidate (cleanRow (headerNames.zip (exportVals r)))

theorem nseImportCandOf_keys {r : StockRow} (hn : RowNormed r) :
    (nseImportCandOf r).symbol_nse = r.symbol_nse ∧
    (nseImportCandOf r).symbol_bse = none ∧
    (nseImportCandOf r).isin = r.isin := by
  obtain ⟨n1, n2, n3, n4, n5, n6, n7⟩ := hn
  unfold nseImportCandOf
  rw [show exportVals r = [r.symbol_nse.getD "", r.symbol_bse.getD "",
      replaceChar (replaceChar (r.company_name.getD "") '\n' ' ') '\r' ' ',
      r.isin.getD "", r.nse_series.getD "", r.bse_scrip_code.getD "",
      r.status.getD ""] from rfl]
  rw [cleanRow_eval]
  refine ⟨?_, rfl, ?_⟩
  · show strToOpt (getCol _ "symbol_nse") = r.symbol_nse
    rw [getCol_cons_hit]
    exact strToOpt_getD n1
  · show strToOpt (getCol _ "isin") = r.isin
    rw [getCol_cons_miss (by decide), getCol_cons_miss (by decide),
      getCol_cons_miss (by decide), getCol_cons_hit]
    exact strToOpt_getD n4

/-- The identity-key triple of a stock row. -/
def projKeys (r : StockRow) : Option String × Option String × Option String :=
  (r.symbol_nse, r.symbol_bse, r.isin)

/-- The identity-key triple a candidate inserts. -/
def candKeys (c : StockUpsert) : Option String × Option String × Option String :=
  (_norm c.symbol_nse, _norm c.symbol_bse, _norm c.isin)

theorem nseImportCandOf_candKeys {r : StockRow} (hn : RowNormed r) :
    candKeys (nseImportCandOf r) = (r.symbol_nse, none, r.isin) := by
  obtain ⟨h1, h2, h3⟩ := nseImportCandOf_keys hn
  obtain ⟨n1, _, _, n4, _, _, _⟩ := hn
  unfold candKeys
  rw [h1, h2, h3, norm_of_normed n1, norm_of_normed n4]
  rfl

/-- None of the candidate's keys is present in the table. -/
def KeysFreshFor (t : StocksTable) (c : StockUpsert) : Prop :=
  (∀ r ∈ t.rows, ∀ v, _norm c.isin = some v → r.isin ≠ some v) ∧
  (∀ r ∈ t.rows, ∀ v, _norm c.symbol_nse = some v → r.symbol_nse ≠ some v) ∧
  (∀ r ∈ t.rows, ∀ v, _norm c.symbol_bse = some v → r.symbol_bse ≠ some v)

/-- Two candidates share no identity key. -/
def KeyDisjoint (a b : StockUpsert) : Prop :=
  (∀ v, _norm a.isin = some v → _norm b.isin ≠ some v) ∧
  (∀ v, _norm a.symbol_nse = some v → _norm b.symbol_nse ≠ some v) ∧
  (∀ v, _norm a.symbol_bse = some v → _norm b.symbol_bse ≠ some v)

theorem upsert_universe_membership_stocks (db : Db) (uid sid : Nat)
    (inc : Bool) (now : String) :
    (upsert_universe_membership db uid sid inc now).stocks = db.stocks := by
  simp only [upsert_universe_membership]
  split <;> rfl

theorem lookupKey_none_of_fresh {rows : List StockRow}
    {f : StockRow → Option String} {v : Option String} (hn : NormedOpt v)
    (h : ∀ r ∈ rows, ∀ s, v = some s → f r ≠ some s) :
    lookupKey rows f v = none := by
  cases v with
  | none => rfl
  | some s =>
    exact (lookupKey_none_iff hn.1).mpr (fun r hr => h r hr s rfl)

theorem find_none_of_fresh (t : StocksTable) (c : StockUpsert)
    (h : KeysFreshFor t c) :
    _find_stock_id t.rows (_norm c.isin) (_norm c.symbol_nse)
      (_norm c.symbol_bse) = none := by
  obtain ⟨h1, h2, h3⟩ := h
  unfold _find_stock_id
  rw [lookupKey_none_of_fresh (normedOpt_norm c.isin)
    (fun r hr s hs => h1 r hr s hs)]
  rw [lookupKey_none_of_fresh (normedOpt_norm c.symbol_nse)
    (fun r hr s hs => h2 r hr s hs)]
  rw [lookupKey_none_of_fresh (normedOpt_norm c.symbol_bse)
    (fun r hr s hs => h3 r hr s hs)]

/-- Folding the importer's per-row loop over candidates with pairwise
fresh, pairwise disjoint keys appends one row per candidate, whose key
triple is the candidate's. -/
theorem ingest_fold_keys (cand : List (String × String) → StockUpsert)
    (uid : Nat) (now : String) (rs : List (List (String × String))) :
    ∀ db : Db, StoreInv db.stocks →
    (∀ row ∈ rs, KeysFreshFor db.stocks (cand row)) →
    rs.Pairwise (fun r1 r2 => KeyDisjoint (cand r1) (cand r2)) →
    (ingestSnapshotRows db uid cand now rs).stocks.rows.map projKeys
      = db.stocks.rows.map projKeys
        ++ rs.map (fun row => candKeys (cand row)) := by
  induction rs with
  | nil =>
    intro db _ _ _
    simp [ingestSnapshotRows]
  | cons row rest ih =>
    intro db hInv hfree hpair
    have hfind := find_none_of_fresh db.stocks (cand row) (hfree row (by simp))
    have heq := upsert_insert_ok db.stocks (cand row) now hfind
    show (ingestSnapshotRows db uid cand now (row :: rest)).stocks.rows.map
      projKeys = _
    unfold ingestSnapshotRows
    rw [heq]
    have hst : (upsert_universe_membership
        { db with stocks := ⟨db.stocks.rows ++
          [insertRowOf db.stocks.nextId (cand row) now],
          db.stocks.nextId + 1⟩ } uid db.stocks.nextId true now).stocks
        = ⟨db.stocks.rows ++ [insertRowOf db.stocks.nextId (cand row) now],
          db.stocks.nextId + 1⟩ :=
      upsert_universe_membership_stocks _ _ _ _ _
    have hInv1 : StoreInv (⟨db.stocks.rows ++
        [insertRowOf db.stocks.nextId (cand row) now],
        db.stocks.nextId + 1⟩ : StocksTable) :=
      storeInv_insert db.stocks (cand row) now hInv hfind
    have hfree1 : ∀ r2 ∈ rest,
        KeysFreshFor (⟨db.stocks.rows ++
          [insertRowOf db.stocks.nextId (cand row) now],
          db.stocks.nextId + 1⟩ : StocksTable) (cand r2) := by
      intro r2 hr2
      obtain ⟨f1, f2, f3⟩ := hfree r2 (by simp [hr2])
      obtain ⟨d1, d2, d3⟩ := (List.pairwise_cons.mp hpair).1 r2 hr2
      refine ⟨?_, ?_, ?_⟩ <;> intro r hr v hv
      · rcases List.mem_append.mp hr with hm | hm
        · exact f1 r hm v hv
        · simp only [List.mem_singleton] at hm
          subst hm
          show _norm (cand row).isin ≠ some v
          intro he
          exact d1 v he hv
      · rcases List.mem_append.mp hr with hm | hm
        · exact f2 r hm v hv
        · simp only [List.mem_singleton] at hm
          subst hm
          show _norm (cand row).symbol_nse ≠ some v
          intro he
          exact d2 v he hv
      · rcases List.mem_append.mp hr with hm | hm
        · exact f3 r hm v hv
        · simp only [List.mem_singleton] at hm
          subst hm
          show _norm (cand row).symbol_bse ≠ some v
          intro he
          exact d3 v he hv
    have hpair1 := (List.pairwise_cons.mp hpair).2
    have := ih (upsert_universe_membership
      { db with stocks := ⟨db.stocks.rows ++
        [insertRowOf db.stocks.nextId (cand row) now],
        db.stocks.nextId + 1⟩ } uid db.stocks.nextId true now)
      (by rw [hst]; exact hInv1) (by rw [hst]; exact hfree1) hpair1
    rw [this, hst]
    rw [List.map_append]
    rw [show ([insertRowOf db.stocks.nextId (cand row) now].map projKeys)
        = [candKeys (cand row)] from rfl]
    simp

/-! ### Lemmas: the exporter's sort and join -/

theorem insertSorted_perm (le : StockRow → StockRow → Bool) (x : StockRow) :
    ∀ l : List StockRow, (insertSorted le x l).Perm (x :: l)
  | [] => List.Perm.refl _
  | y :: ys => by
    unfold insertSorted
    split
    · exact List.Perm.refl _
    · exact ((insertSorted_perm le x ys).cons y).trans (List.Perm.swap x y ys)

theorem sortRows_perm (le : StockRow → StockRow → Bool) :
    ∀ l : List StockRow, (sortRows le l).Perm l
  | [] => List.Perm.refl _
  | x :: xs => by
    unfold sortRows
    exact (insertSorted_perm le x (sortRows le xs)).trans
      ((sortRows_perm le xs).cons x)

theorem universeIncludedRows_mem {db : Db} {uid : Nat} :
    ∀ r ∈ universeIncludedRows db uid, r ∈ db.stocks.rows := by
  intro r hr
  obtain ⟨m, _, hfind⟩ := List.mem_filterMap.mp hr
  exact List.mem_of_find?_eq_some hfind

theorem universeIncludedRows_ids (db : Db) (uid : Nat)
    (hPK : db.membership.Pairwise (fun a b =>
      ¬(a.universe_id = b.universe_id ∧ a.stock_id = b.stock_id))) :
    (universeIncludedRows db uid).Pairwise
      (fun a b => a.stock_id ≠ b.stock_id) := by
  unfold universeIncludedRows
  have hfPK : (db.membership.filter (fun m =>
      m.universe_id == uid && m.included == 1)).Pairwise (fun a b =>
      ¬(a.universe_id = b.universe_id ∧ a.stock_id = b.stock_id)) :=
    hPK.sublist (List.filter_sublist _)
  have hfid : ∀ m ∈ db.membership.filter (fun m =>
      m.universe_id == uid && m.included == 1), m.universe_id = uid := by
    intro m hm
    have h2 := (List.mem_filter.mp hm).2
    simp only [Bool.and_eq_true, beq_iff_eq] at h2
    exact h2.1
  have hsid : (db.membership.filter (fun m =>
      m.universe_id == uid && m.included == 1)).Pairwise
      (fun a b => a.stock_id ≠ b.stock_id) := by
    refine hfPK.imp_of_mem ?_
    intro a b ha hb hnand heq
    exact hnand ⟨(hfid a ha).trans (hfid b hb).symm, heq⟩
  refine List.Pairwise.filterMap _ ?_ hsid
  intro m1 m2 hne r1 hr1 r2 hr2
  have h1 : db.stocks.rows.find? (fun r => r.stock_id == m1.stock_id)
      = some r1 := hr1
  have h2 : db.stocks.rows.find? (fun r => r.stock_id == m2.stock_id)
      = some r2 := hr2
  have e1 := List.find?_some h1
  have e2 := List.find?_some h2
  simp only [beq_iff_eq] at e1 e2
  rw [e1, e2]
  exact hne

/-! ### Claim theorems: C4 (snapshot round trip) -/

theorem import_rows_pairwise (db : Db) (uid : Nat)
    (hInv : StoreInv db.stocks)
    (hPK : db.membership.Pairwise (fun a b =>
      ¬(a.universe_id = b.universe_id ∧ a.stock_id = b.stock_id))) :
    (sortRows exportKeyLe (universeIncludedRows db uid)).Pairwise
      (fun r1 r2 => KeyDisjoint (nseImportCandOf r1) (nseImportCandOf r2)) := by
  obtain ⟨hlt, hIds, hNorm, hUi, hUn, hUb⟩ := hInv
  have hperm := sortRows_perm exportKeyLe (universeIncludedRows db uid)
  have hids := universeIncludedRows_ids db uid hPK
  have hids2 : (sortRows exportKeyLe (universeIncludedRows db uid)).Pairwise
      (fun a b => a.stock_id ≠ b.stock_id) :=
    (hperm.pairwise_iff (fun h => h.symm)).mpr hids
  refine hids2.imp_of_mem ?_
  intro a b ha hb hne
  have hma : a ∈ db.stocks.rows :=
    universeIncludedRows_mem a (hperm.mem_iff.mp ha)
  have hmb : b ∈ db.stocks.rows :=
    universeIncludedRows_mem b (hperm.mem_iff.mp hb)
  have hna := hNorm a hma
  have hnb := hNorm b hmb
  obtain ⟨ka1, ka2, ka3⟩ := nseImportCandOf_keys hna
  obtain ⟨kb1, kb2, kb3⟩ := nseImportCandOf_keys hnb
  obtain ⟨na1, -, -, na4, -, -, -⟩ := hna
  obtain ⟨nb1, -, -, nb4, -, -, -⟩ := hnb
  refine ⟨?_, ?_, ?_⟩ <;> intro v h1 h2
  · rw [ka3, norm_of_normed na4] at h1
    rw [kb3, norm_of_normed nb4] at h2
    have hv : v ≠ "" := by
      rw [h1] at na4
      exact na4.1
    exact hne (congrArg StockRow.stock_id (uniqField_eq hUi hma hmb hv h1 h2))
  · rw [ka1, norm_of_normed na1] at h1
    rw [kb1, norm_of_normed nb1] at h2
    have hv : v ≠ "" := by
      rw [h1] at na1
      exact na1.1
    exact hne (congrArg StockRow.stock_id (uniqField_eq hUn hma hmb hv h1 h2))
  · rw [ka2] at h1
    exact absurd h1 (by simp [_norm])

/-- C4 (amended): for a store satisfying the schema invariants whose
symbol/ISIN/series/scrip/status values contain no line breaks, exporting
the NSE universe snapshot and importing the resulting file into a fresh
empty store reproduces, up to order, the (symbol_nse, isin) pairs of the
universe's included members — but every imported row has symbol_bse NULL:
the NSE importer does not read the exported symbol_bse column, so the
full (symbol_nse, symbol_bse, isin) tuple set of the original claim is
not reproduced. -/
theorem snapshot_roundtrip_nse (db : Db) (out_path now now2 : String)
    (u : UniverseRow) (hInv : StoreInv db.stocks)
    (hu : db.universes.find? (fun w => w.universe_code == "nse_eq") = some u)
    (hPK : db.membership.Pairwise (fun a b =>
      ¬(a.universe_id = b.universe_id ∧ a.stock_id = b.stock_id)))
    (hclean : ∀ r ∈ db.stocks.rows, CleanFields r) :
    ∃ n content db1,
      export_universe_snapshot_csv db "nse_eq" out_path now
        = (n, some (out_path, content), db1) ∧
      List.Perm
        ((ingest_from_snapshots emptyDb (some content) none
          now2).stocks.rows.map projKeys)
        ((universeIncludedRows db u.universe_id).map
          (fun r => (r.symbol_nse, (none : Option String), r.isin))) := by
  have hperm := sortRows_perm exportKeyLe (universeIncludedRows db u.universe_id)
  have hexp : export_universe_snapshot_csv db "nse_eq" out_path now
      = ((sortRows exportKeyLe (universeIncludedRows db u.universe_id)).length,
        some (out_path, snapshotContent
          (sortRows exportKeyLe (universeIncludedRows db u.universe_id))),
        { db with snapshots := db.snapshots ++
          [⟨u.universe_id, now, out_path,
            (sortRows exportKeyLe (universeIncludedRows db u.universe_id)).length,
            sha256_text (snapshotContent (sortRows exportKeyLe
              (universeIncludedRows db u.universe_id)))⟩] }) := by
    simp only [export_universe_snapshot_csv,
      show pyLower (pyStrip "nse_eq") = "nse_eq" from by decide, hu]
  refine ⟨_, _, _, hexp, ?_⟩
  have hcleanSorted : ∀ r ∈ sortRows exportKeyLe
      (universeIncludedRows db u.universe_id), CleanFields r := by
    intro r hr
    exact hclean r (universeIncludedRows_mem r (hperm.mem_iff.mp hr))
  have hread := read_snapshot_csv_snapshot hcleanSorted
  have hens : ensure_universe emptyDb "nse_eq"
      (some "NSE listed equities (snapshot)")
      = (1, ⟨emptyStocks,
          [⟨1, "nse_eq", some "NSE listed equities (snapshot)"⟩], 2, [],
          []⟩) := by decide
  have hingest : ingest_from_snapshots emptyDb
      (some (snapshotContent (sortRows exportKeyLe
        (universeIncludedRows db u.universe_id)))) none now2
      = ingestSnapshotRows
        ⟨emptyStocks, [⟨1, "nse_eq", some "NSE listed equities (snapshot)"⟩],
          2, [], []⟩ 1 nseSnapshotCandidate now2
        (read_snapshot_csv (snapshotContent (sortRows exportKeyLe
          (universeIncludedRows db u.universe_id)))) := by
    simp only [ingest_from_snapshots, hens]
  rw [hingest, hread]
  have hfold := ingest_fold_keys nseSnapshotCandidate 1 now2
    ((sortRows exportKeyLe (universeIncludedRows db u.universe_id)).map
      (fun r => cleanRow (headerNames.zip (exportVals r))))
    ⟨emptyStocks, [⟨1, "nse_eq", some "NSE listed equities (snapshot)"⟩],
      2, [], []⟩
    storeInv_empty
    (by
      intro row _
      refine ⟨?_, ?_, ?_⟩ <;> intro r hr v _ <;> exact absurd hr (by simp [emptyStocks]))
    (by
      rw [List.pairwise_map]
      exact import_rows_pairwise db u.universe_id hInv hPK)
  rw [hfold]
  rw [show ((⟨emptyStocks,
      [⟨1, "nse_eq", some "NSE listed equities (snapshot)"⟩], 2, [],
      []⟩ : Db).stocks.rows.map projKeys) = [] from rfl]
  rw [List.nil_append, List.map_map]
  have hmapeq : (sortRows exportKeyLe (universeIncludedRows db
      u.universe_id)).map ((fun row => candKeys (nseSnapshotCandidate row)) ∘
        (fun r => cleanRow (headerNames.zip (exportVals r))))
      = (sortRows exportKeyLe (universeIncludedRows db u.universe_id)).map
        (fun r => (r.symbol_nse, (none : Option String), r.isin)) := by
    apply List.map_congr_left
    intro r hr
    have hn := hInv.2.2.1 r
      (universeIncludedRows_mem r (hperm.mem_iff.mp hr))
    exact nseImportCandOf_candKeys hn
  rw [hmapeq]
  exact hperm.map _

/-- Concrete store for the C4 counterexample: one NSE-universe member
that also carries a BSE symbol and scrip code. -/
def c4Row : StockRow :=
  ⟨1, some "FOO", some "500123", some "Foo Ltd", some "IN001", some "EQ",
    some "500123", some "active", "t0"⟩

def c4Db : Db :=
  ⟨⟨[c4Row], 2⟩, [⟨1, "nse_eq", none⟩], 2, [⟨1, 1, 1, "t0"⟩], []⟩

/-- C4 counterexample: exporting the NSE universe of `c4Db` and importing
the file into a fresh store loses the member's BSE symbol — the imported
(symbol_nse, symbol_bse, isin) tuple is (FOO, NULL, IN001), not the
original (FOO, 500123, IN001) — so the round trip does not reproduce the
tuple set the claim states. -/
theorem snapshot_roundtrip_counterexample :
    (export_universe_snapshot_csv c4Db "nse_eq" "nse_eq.csv" "t1").2.1
      = some ("nse_eq.csv", snapshotContent [c4Row]) ∧
    ((ingest_from_snapshots emptyDb (some (snapshotContent [c4Row])) none
        "t2").stocks.rows.map projKeys)
      = [(some "FOO", none, some "IN001")] ∧
    (c4Db.stocks.rows.map projKeys)
      = [(some "FOO", some "500123", some "IN001")] ∧
    ((some "FOO", (none : Option String), some "IN001")
        : Option String × Option String × Option String)
      ≠ (some "FOO", some "500123", some "IN001") := by
  refine ⟨by decide, by decide, by decide, by decide⟩

theorem snapshot_roundtrip_witness :
    StoreInv c4Db.stocks ∧
    (∃ n content db1,
      export_universe_snapshot_csv c4Db "nse_eq" "nse_eq.csv" "t1"
        = (n, some ("nse_eq.csv", content), db1) ∧
      List.Perm
        (((ingest_from_snapshots emptyDb (some content) none
          "t2").stocks.rows.map projKeys))
        ((universeIncludedRows c4Db 1).map
          (fun r => (r.symbol_nse, (none : Option String), r.isin)))) := by
  refine ⟨by decide, ?_⟩
  exact snapshot_roundtrip_nse c4Db "nse_eq.csv" "t1" "t2"
    ⟨1, "nse_eq", none⟩ (by decide) (by decide) (by decide) (by decide)

/-! ### First sanity examples (concrete evaluation of the model) -/

example : _norm (some "  REL  ") = some "REL" := by decide

example : _norm (some "   ") = none := by decide

example :
    upsert_stock emptyStocks { isin := some "IN001", symbol_nse := some "FOO" } "t1"
      = .ok (1, ⟨[{ stock_id := 1, symbol_nse := some "FOO", symbol_bse := none,
                    company_name := none, isin := some "IN001", nse_series := none,
                    bse_scrip_code := none, status := none, updated_utc := "t1" }], 2⟩) := by
  decide

end SMAssist
